import Mathlib

/-!
Verification development for the async-agreement-protocol repository.

The Go sources are shallowly embedded: each service's per-instance state is a
Lean structure, each handler is a pure function returning the new state
together with the lists of broadcast messages and results it emits during the
call.  Go `map` values are modelled as functions with a default (or as
association lists where the code iterates over the map; iteration order of a
Go map is unspecified, the list order is one admissible order, and every
observable below is order-insensitive).  `math/big` integers are `ℤ` with the
explicit `%` of the code; `big.Int.Mod` is Euclidean, which is `Int.emod`.
-/

/-! ## Prime field helpers (utils/polynomials.go)

The Go code fixes the modulus `utils.Prime` globally; the Lean functions take
the modulus as an explicit first argument and `Prime` below is the source's
constant, so that statements can also be instantiated at small primes. -/

namespace Utils

/-- The modulus from utils/polynomials.go (the secp256k1 base-field prime). -/
def Prime : ℕ :=
  0xFFFFFFFFFFFFFFFFFFFFFFFFFFFFFFFFFFFFFFFFFFFFFFFFFFFFFFFEFFFFFC2F

/-- `Polynomial.Evaluate`: Horner's rule, reducing by the modulus after every
step, iterating coefficients from the highest index down to 0. -/
def evalPoly (p : ℕ) (coeffs : List ℤ) (x : ℤ) : ℤ :=
  coeffs.reverse.foldl (fun result c => (result * x + c) % (p : ℤ)) 0

/-- `big.Int.ModInverse(a, p)` computed by the extended Euclidean algorithm
(`Nat.xgcd`); for `a` invertible mod `p` this is the unique inverse in
`[0, p)`, exactly what Go returns.  (On non-invertible input Go returns nil
and the caller would crash; that case is unreachable in the verified uses.) -/
def modInverse (p : ℕ) (a : ℤ) : ℤ :=
  ((Nat.gcdA (a.emod p).toNat p : ℤ)).emod p

/-- The inner loop of `InterpolateAtZero` for index `j`: the running
(numerator, denominator) pair over `m ≠ j`, reduced mod `p` after each
multiplication, exactly as the Go loop does. -/
def lagNumDen (p : ℕ) (xs : List ℤ) (k j : ℕ) : ℤ × ℤ :=
  (List.range k).foldl (fun nd m =>
    if m = j then nd
    else ((nd.1 * (-(xs.getD m 0))) % (p : ℤ),
          (nd.2 * (xs.getD j 0 - xs.getD m 0)) % (p : ℤ))) (1, 1)

/-- The `term` of `InterpolateAtZero` for index `j`:
`term = y_j * num mod p`, then `term = term * den⁻¹ mod p`. -/
def lagTerm (p : ℕ) (xs ys : List ℤ) (k j : ℕ) : ℤ :=
  ((ys.getD j 0 * (lagNumDen p xs k j).1) % (p : ℤ)
    * modInverse p (lagNumDen p xs k j).2) % (p : ℤ)

/-- `utils.InterpolateAtZero`: Lagrange interpolation evaluated at zero.
The final negative-result fix-up of the source is kept (it is dead code
because Euclidean `%` is never negative). -/
def InterpolateAtZero (p : ℕ) (xs ys : List ℤ) : ℤ :=
  let k := xs.length
  let result := (List.range k).foldl
    (fun result j => (result + lagTerm p xs ys k j) % (p : ℤ)) 0
  if result < 0 then result + (p : ℤ) else result

end Utils

/-! ## A-Cast (services/acast.go)

One `ACast.Instance` per uuid; `OnMessage` is the Bracha state machine.  The
Go code clears the two voter maps (sets them to `nil`) upon delivery, which is
modelled by the `Option` being `none`. -/

namespace ACast

inductive MessageType where
  | MSG
  | ECHO
  | READY
deriving DecidableEq, Repr

structure Message (V : Type) where
  type : MessageType
  UUID : String
  Val : V
  From : ℕ
deriving DecidableEq

structure Instance (V : Type) where
  receivedEcho : Option (V → Finset ℕ)
  receivedReady : Option (V → Finset ℕ)
  sentEcho : Bool
  sentReady : Bool
  delivered : Bool

/-- `NewACastInstance`: empty voter maps, all flags false. -/
def NewInstance (V : Type) : Instance V :=
  ⟨some (fun _ => ∅), some (fun _ => ∅), false, false, false⟩

structure Output (V : Type) where
  inst : Instance V
  broadcasts : List (Message V)
  results : List V

variable {V : Type} [DecidableEq V]

/-- The `addToSet` helper: insert the sender into the per-value voter set and
return the updated map together with the new size of that set. -/
def addToSet (m : Option (V → Finset ℕ)) (val : V) (sender : ℕ) :
    (V → Finset ℕ) × ℕ :=
  let f := m.getD (fun _ => ∅)
  let f' := Function.update f val (insert sender (f val))
  (f', (f' val).card)

/-- `AcastService.OnMessage` for a single instance.  Thresholds `n - t`,
`t + 1`, `2t + 1` as in the source (`n ≥ t` in every run, so the Go `int`
subtraction agrees with `ℕ` subtraction). -/
def OnMessage (aid n t : ℕ) (inst : Instance V) (msg : Message V) : Output V :=
  if inst.delivered then ⟨inst, [], []⟩ else
  match msg.type with
  | .MSG =>
      if inst.sentEcho = false then
        ⟨{ inst with sentEcho := true }, [⟨.ECHO, msg.UUID, msg.Val, aid⟩], []⟩
      else ⟨inst, [], []⟩
  | .ECHO =>
      let r := addToSet inst.receivedEcho msg.Val msg.From
      let inst' : Instance V := { inst with receivedEcho := some r.1 }
      if n - t ≤ r.2 ∧ inst'.sentReady = false then
        ⟨{ inst' with sentReady := true }, [⟨.READY, msg.UUID, msg.Val, aid⟩], []⟩
      else ⟨inst', [], []⟩
  | .READY =>
      let r := addToSet inst.receivedReady msg.Val msg.From
      let inst1 : Instance V := { inst with receivedReady := some r.1 }
      let step2 : Instance V × List (Message V) :=
        if t + 1 ≤ r.2 ∧ inst1.sentReady = false then
          ({ inst1 with sentReady := true }, [⟨.READY, msg.UUID, msg.Val, aid⟩])
        else (inst1, [])
      if 2 * t + 1 ≤ r.2 ∧ step2.1.delivered = false then
        ⟨{ step2.1 with delivered := true,
                        receivedEcho := none, receivedReady := none },
         step2.2, [msg.Val]⟩
      else ⟨step2.1, step2.2, []⟩

/-- The service keeps one instance per uuid (`getInstance` creates a fresh
one lazily, so a total function with fresh default is the same thing).
`run` folds a message sequence through the service, tagging each emitted
result with the uuid of the message whose handling emitted it. -/
def run (aid n t : ℕ) (svc : String → Instance V) :
    List (Message V) → (String → Instance V) × List (String × V)
  | [] => (svc, [])
  | msg :: rest =>
      let out := OnMessage aid n t (svc msg.UUID) msg
      let r := run aid n t (Function.update svc msg.UUID out.inst) rest
      (r.1, out.results.map (fun v => (msg.UUID, v)) ++ r.2)

end ACast

/-! ## Shared small helpers -/

/-- `isSubset` (icc.go / used by vote.go): every element of `sub` occurs in
`sup` (the Go version builds a membership map of `sup`). -/
def subsetB (sub sup : List ℕ) : Bool :=
  sub.all (fun v => sup.contains v)

/-- Insert-or-replace into an association list, the model of a Go map write;
iteration over the map is modelled as iteration over the list (one admissible
order of Go's unspecified map order — all observables below are
order-insensitive). -/
def upsert {α : Type} (k : ℕ) (v : α) : List (ℕ × α) → List (ℕ × α)
  | [] => [(k, v)]
  | (k', v') :: rest =>
      if k' = k then (k, v) :: rest else (k', v') :: upsert k v rest

/-! ## Certification registry (certification.go) -/

structure CertificationProtocol where
  fp : Finset (ℕ × ℕ)
deriving DecidableEq

/-- `AddFaultyPair`: stores the unordered pair as `{min, max}`. -/
def CertificationProtocol.AddFaultyPair (cp : CertificationProtocol)
    (i j : ℕ) : CertificationProtocol :=
  ⟨insert (min i j, max i j) cp.fp⟩

/-- `IsFaultyPair`: membership of the normalised pair. -/
def CertificationProtocol.IsFaultyPair (cp : CertificationProtocol)
    (i j : ℕ) : Bool :=
  (min i j, max i j) ∈ cp.fp

/-! ## IVSS (services/ivss.go)

The greedy O(n²) candidate-set / interpolation-set construction of the
current source.  All functions take the field modulus `pr` as a parameter
(the source fixes it to `Utils.Prime`). -/

namespace IVSS

inductive PayloadType where
  | equal
  | mset
  | reveal
  | ready
deriving DecidableEq, Repr

/-- The Go iota value of each payload type, as printed by `%d`. -/
def PayloadType.code : PayloadType → ℕ
  | .equal => 0
  | .mset => 1
  | .reveal => 2
  | .ready => 3

/-- `IVSSPayload` (field `Type` is called `ptype` because `Type` is reserved
in Lean).  Absent optional fields are the Go zero values. -/
structure Payload where
  InstanceID : String
  ptype : PayloadType
  EqualPair : ℕ × ℕ
  MSet : List ℕ
  RevealPoly : Option (List ℤ)
  RevealSender : ℕ
deriving DecidableEq

def mkEqual (instId : String) (i j : ℕ) : Payload :=
  ⟨instId, .equal, (i, j), [], none, 0⟩

def mkMSet (instId : String) (m : List ℕ) : Payload :=
  ⟨instId, .mset, (0, 0), m, none, 0⟩

def mkReveal (instId : String) (poly : Option (List ℤ)) (sender : ℕ) : Payload :=
  ⟨instId, .reveal, (0, 0), [], poly, sender⟩

def mkReady (instId : String) (sender : ℕ) : Payload :=
  ⟨instId, .ready, (0, 0), [], none, sender⟩

/-- `IVSSInstance`.  Maps are functions (with default) where the code only
looks up, and association lists where the code iterates. -/
structure Instance where
  id : String
  dealer : ℕ
  receivedPoly : Option (List ℤ)
  earlyPoints : List (ℕ × ℤ)
  completedEquals : ℕ × ℕ → Bool
  mSet : Option (List ℕ)
  pendingMSet : Option (List ℕ)
  sharingCompleted : Bool
  reconstructedPolys : List (ℕ × List ℤ)
  readyToComplete : Finset ℕ
  reconstructed : Bool
  secret : Option ℤ

def NewInstance (id : String) (dealer : ℕ) : Instance :=
  ⟨id, dealer, none, [], fun _ => false, none, none, false, [], ∅, false, none⟩

inductive DirectType where
  | Share
  | Point
deriving DecidableEq, Repr

/-- The direct (point-to-point) part of `IVSSMessage`. -/
structure DirectMsg where
  DirectType : DirectType
  To : ℕ
  From : ℕ
  InstanceID : String
  Poly : Option (List ℤ)
  Point : Option ℤ
  PointIdx : ℕ
deriving DecidableEq

/-- A broadcast emitted by the IVSS layer: either a direct message or a
freshly started A-Cast (`startACast` wraps the payload in an A-Cast `MSG`
with the uuid below). -/
inductive Out where
  | direct (m : DirectMsg)
  | acast (uuid : String) (p : Payload)
deriving DecidableEq

/-- `IVSSResult` (`Type` renamed `rtype`). -/
structure Result where
  InstanceID : String
  rtype : String
  Secret : Option ℤ
  MSet : Option (List ℕ)
  Poly : Option (List ℤ)
deriving DecidableEq

/-- The uuid chosen by `startACast`: the default `"%s-%d-%v"` format (kept
for EQUAL payloads, where `%v` of the Go array `[2]int{i,j}` prints
`[i j]`), overridden for MSET / REVEAL / READY. -/
def startACastUuid (selfId : ℕ) (p : Payload) : String :=
  match p.ptype with
  | .equal =>
      p.InstanceID ++ "-" ++ toString (PayloadType.code .equal) ++ "-[" ++
        toString p.EqualPair.1 ++ " " ++ toString p.EqualPair.2 ++ "]"
  | .mset => p.InstanceID ++ "-MSET"
  | .reveal => p.InstanceID ++ "-REVEAL-" ++ toString selfId
  | .ready => p.InstanceID ++ "-READY-" ++ toString selfId

def startACast (selfId : ℕ) (p : Payload) : Out :=
  .acast (startACastUuid selfId p) p

/-- `processPoint`: compare my slice's value at the sender with the received
point; on equality start the `EQUAL(selfId, sender)` A-Cast.  Mutates no
instance state. -/
def processPoint (pr selfId : ℕ) (inst : Instance) (sender : ℕ) (point : ℤ) :
    List Out :=
  match inst.receivedPoly with
  | none => []
  | some poly =>
      if Utils.evalPoly pr poly sender = point then
        [startACast selfId (mkEqual inst.id selfId sender)]
      else []

structure StepOut where
  inst : Instance
  broadcasts : List Out
  results : List Result

/-- `IVSSService.OnMessage`, direct-message part (the `IVSS_ACast` branch
delegates to the internal `ACast.OnMessage`).  Messages whose `To` is not
this node are dropped before any state is touched. -/
def OnMessage (pr selfId n : ℕ) (inst : Instance) (msg : DirectMsg) : StepOut :=
  if msg.To ≠ selfId then ⟨inst, [], []⟩ else
  match msg.DirectType with
  | .Share =>
      let poly := msg.Poly.getD []
      let inst1 := { inst with receivedPoly := msg.Poly, dealer := msg.From }
      let pointMsgs := (List.range' 1 n).map (fun j =>
        Out.direct ⟨.Point, j, selfId, msg.InstanceID, none,
                    some (Utils.evalPoly pr poly j), j⟩)
      let earlyOuts := inst1.earlyPoints.foldl
        (fun acc e => acc ++ processPoint pr selfId inst1 e.1 e.2) []
      ⟨{ inst1 with earlyPoints := [] }, pointMsgs ++ earlyOuts, []⟩
  | .Point =>
      match inst.receivedPoly with
      | none =>
          let early := upsert msg.From (msg.Point.getD 0) inst.earlyPoints
          ⟨{ inst with earlyPoints := early }, [], []⟩
      | some _ =>
          ⟨inst, processPoint pr selfId inst msg.From (msg.Point.getD 0), []⟩

/-- `GetUnivariatePolynomial`: coefficient `j` of `f_k` is
`Σ_i C_ij · (k^i mod p) mod p`, accumulated with a reduction after every
addition as in the source. -/
def GetUnivariatePolynomial (pr t : ℕ) (coeffs : ℕ → ℕ → ℤ) (k : ℤ) :
    List ℤ :=
  (List.range (t + 1)).map (fun j =>
    (List.range (t + 1)).foldl
      (fun acc i => (acc + (coeffs i j * (k ^ i % (pr : ℤ))) % (pr : ℤ)) % (pr : ℤ)) 0)

/-- `StartSharing` (dealer): one `Direct_Share` per `k ∈ 1..n`, carrying the
slice `f_k` and addressed with `To = k`, each handed to `ctx.Broadcast`.
The sampled symmetric coefficient matrix is the `coeffs` input. -/
def StartSharing (pr t selfId n : ℕ) (instanceID : String)
    (coeffs : ℕ → ℕ → ℤ) : List Out :=
  (List.range' 1 n).map (fun k =>
    Out.direct ⟨.Share, k, selfId, instanceID,
                some (GetUnivariatePolynomial pr t coeffs (k : ℤ)), none, 0⟩)

/-- The greedy single-pass candidate-set construction of `checkCandidateSet`:
scan `1..n`, adding a candidate iff it is pairwise consistent (both ordered
EQUALs delivered, pair not flagged) with everything already in the set. -/
def buildMSet (n : ℕ) (cp : CertificationProtocol) (inst : Instance) :
    List ℕ :=
  (List.range' 1 n).foldl (fun mSet candidate =>
    if mSet.all (fun inM =>
        (inst.completedEquals (candidate, inM) &&
         inst.completedEquals (inM, candidate)) &&
        !(cp.IsFaultyPair candidate inM))
    then mSet ++ [candidate] else mSet) []

/-- `checkCandidateSet` (dealer only, pre-completion only): build the greedy
set; when it reaches `n - t`, sort it and start the MSET A-Cast.  It changes
no instance state. -/
def checkCandidateSet (selfId n t : ℕ) (cp : CertificationProtocol)
    (inst : Instance) : List Out :=
  if selfId ≠ inst.dealer then [] else
  if inst.sharingCompleted then [] else
  let mSet := buildMSet n cp inst
  if n - t ≤ mSet.length then
    [startACast selfId (mkMSet inst.id (List.insertionSort (· ≤ ·) mSet))]
  else []

def pairOK (cp : CertificationProtocol) (inst : Instance) (u v : ℕ) : Bool :=
  (inst.completedEquals (u, v) && inst.completedEquals (v, u)) &&
    !(cp.IsFaultyPair u v)

def verifyPairs (cp : CertificationProtocol) (inst : Instance) :
    List ℕ → Bool
  | [] => true
  | u :: rest => rest.all (pairOK cp inst u) && verifyPairs cp inst rest

/-- `verifyMSet`: size at least `n - t` and all unordered index pairs pass
the EQUAL / not-flagged checks. -/
def verifyMSet (n t : ℕ) (cp : CertificationProtocol) (inst : Instance)
    (mSet : List ℕ) : Bool :=
  if mSet.length < n - t then false else verifyPairs cp inst mSet

/-- `isConsistent` of `checkInterpolationSet`: `P_u(v) == P_v(u)`. -/
def isConsistent (pr : ℕ) (polys : List (ℕ × List ℤ)) (u v : ℕ) : Bool :=
  decide (Utils.evalPoly pr ((List.lookup u polys).getD []) (v : ℤ) =
          Utils.evalPoly pr ((List.lookup v polys).getD []) (u : ℤ))

structure DeliverOut where
  cp : CertificationProtocol
  inst : Instance
  broadcasts : List Out
  results : List Result

/-- `checkInterpolationSet`: candidates are the reveal senders inside `M`;
greedy pass adding a candidate iff consistent with everything already in the
set, flagging the first offending pair otherwise; when the set reaches
`max (n - 2t) 1`, interpolate the secret at zero and start the READY
A-Cast.  Emits no result. -/
def checkInterpolationSet (pr selfId n t : ℕ) (cp : CertificationProtocol)
    (inst : Instance) : DeliverOut :=
  match inst.mSet with
  | none => ⟨cp, inst, [], []⟩
  | some m =>
    let candidates := (inst.reconstructedPolys.map Prod.fst).filter
      (fun k => m.contains k)
    if candidates.length < n - 2 * t then ⟨cp, inst, [], []⟩
    else
      let scan := candidates.foldl
        (fun (acc : List ℕ × CertificationProtocol) candidate =>
          match acc.1.find?
              (fun inSet => !(isConsistent pr inst.reconstructedPolys candidate inSet)) with
          | some inSet => (acc.1, acc.2.AddFaultyPair candidate inSet)
          | none => (acc.1 ++ [candidate], acc.2)) ([], cp)
      let validSet := scan.1
      let cp' := scan.2
      let target := if n - 2 * t = 0 then 1 else n - 2 * t
      if target ≤ validSet.length then
        let points := validSet.map (fun id => (id : ℤ))
        let values := validSet.map (fun id =>
          Utils.evalPoly pr ((List.lookup id inst.reconstructedPolys).getD []) 0)
        let secret := Utils.InterpolateAtZero pr points values
        ⟨cp', { inst with secret := some secret },
         [startACast selfId (mkReady inst.id selfId)], []⟩
      else ⟨cp', inst, [], []⟩

/-- `OnACastDelivered`: the four payload branches. -/
def OnACastDelivered (pr selfId n t : ℕ) (cp : CertificationProtocol)
    (inst : Instance) (payload : Payload) : DeliverOut :=
  match payload.ptype with
  | .equal =>
      let eq1 := Function.update inst.completedEquals payload.EqualPair true
      let inst1 := { inst with completedEquals := eq1 }
      let bs := checkCandidateSet selfId n t cp inst1
      match inst1.pendingMSet with
      | some pm =>
          if inst1.sharingCompleted = false then
            if verifyMSet n t cp inst1 pm then
              let inst2 := { inst1 with
                             mSet := some pm,
                             sharingCompleted := true,
                             pendingMSet := none }
              ⟨cp, inst2, bs,
               [⟨inst2.id, "SHARING_COMPLETE", none, some pm, inst2.receivedPoly⟩]⟩
            else ⟨cp, inst1, bs, []⟩
          else ⟨cp, inst1, bs, []⟩
      | none => ⟨cp, inst1, bs, []⟩
  | .mset =>
      let inst1 := { inst with pendingMSet := some payload.MSet }
      if verifyMSet n t cp inst1 payload.MSet then
        let inst2 := { inst1 with
                       mSet := some payload.MSet,
                       sharingCompleted := true,
                       pendingMSet := none }
        ⟨cp, inst2, [],
         [⟨inst2.id, "SHARING_COMPLETE", none, some payload.MSet, inst2.receivedPoly⟩]⟩
      else ⟨cp, inst1, [], []⟩
  | .reveal =>
      let polys := upsert payload.RevealSender (payload.RevealPoly.getD [])
        inst.reconstructedPolys
      checkInterpolationSet pr selfId n t cp { inst with reconstructedPolys := polys }
  | .ready =>
      let ready := insert payload.RevealSender inst.readyToComplete
      let inst1 := { inst with readyToComplete := ready }
      if n - t ≤ inst1.readyToComplete.card ∧ inst1.reconstructed = false then
        match inst1.secret with
        | some sec =>
            ⟨cp, { inst1 with reconstructed := true }, [],
             [⟨inst1.id, "RECONSTRUCTED", some sec, none, none⟩]⟩
        | none => ⟨cp, inst1, [], []⟩
      else ⟨cp, inst1, [], []⟩

end IVSS

/-! ## Vote (services/vote.go) -/

namespace Vote

inductive PayloadType where
  | input
  | vote1
  | revote
deriving DecidableEq, Repr

structure Payload where
  ptype : PayloadType
  Sender : ℕ
  Bit : ℤ
  Set : List ℕ
  Round : ℕ
deriving DecidableEq

structure RoundState where
  round : ℕ
  receivedInputs : List (ℕ × ℤ)
  myA : List ℕ
  sentVote1 : Bool
  receivedVote1 : List (ℕ × (List ℕ × ℤ))
  myB : List ℕ
  sentRevote : Bool
  receivedRevote : List (ℕ × (List ℕ × ℤ))
  myC : List ℕ
  finished : Bool
deriving DecidableEq

def newRoundState (round : ℕ) : RoundState :=
  ⟨round, [], [], false, [], [], false, [], [], false⟩

structure Result where
  Value : ℤ
  Conf : ℕ
  Round : ℕ
deriving DecidableEq

structure StepOut where
  state : RoundState
  broadcasts : List Payload
  results : List Result
deriving DecidableEq

/-- Majority bit over a list of bits: a bit counts as one unless it is `0`
(`bit == 0` in the source); ties give `0`. -/
def majority (l : List ℤ) : ℤ :=
  let zeros := (l.filter (fun b => decide (b = 0))).length
  let ones := (l.filter (fun b => !(decide (b = 0)))).length
  if zeros < ones then 1 else 0

/-- The `firstVal = -1` scan of the decision logic: returns the final
`(firstVal, allSame)` pair, where an element is only adopted as `firstVal`
while `firstVal` is still `-1` and any later disagreeing element breaks. -/
def scanBits : ℤ → Bool → List ℤ → ℤ × Bool
  | firstVal, allSame, [] => (firstVal, allSame)
  | firstVal, allSame, v :: rest =>
      if firstVal = -1 then scanBits v allSame rest
      else if firstVal ≠ v then (firstVal, false)
      else scanBits firstVal allSame rest

/-- `allSame && firstVal != -1` combined with the scanned value. -/
def allEqualVal (l : List ℤ) : Option ℤ :=
  let r := scanBits (-1) true l
  if r.2 = true ∧ r.1 ≠ -1 then some r.1 else none

/-- The decision logic of phase 3: unanimity over the VOTE1 bits of `B_i`
gives confidence 2, else unanimity over the REVOTE bits of `C_i` gives
confidence 1, else `(⊥, 0)`; each branch reaches `finish`. -/
def decision (bBits cBits : List ℤ) : ℤ × ℕ :=
  match allEqualVal bBits with
  | some σ => (σ, 2)
  | none =>
      match allEqualVal cBits with
      | some σ => (σ, 1)
      | none => (-1, 0)

/-- Phase 1 of `checkProgress`: on `n - t` received INPUTs fix `A_i` (the
key set of `receivedInputs`, sorted), take the majority bit, and A-Cast
VOTE1. -/
def phase1 (selfId n t : ℕ) (st : RoundState) : RoundState × List Payload :=
  if st.sentVote1 = false ∧ n - t ≤ st.receivedInputs.length then
    let A := List.insertionSort (· ≤ ·) (st.receivedInputs.map Prod.fst)
    let v1 := majority (st.receivedInputs.map Prod.snd)
    ({ st with myA := A, sentVote1 := true },
     [⟨.vote1, selfId, v1, A, st.round⟩])
  else (st, [])

/-- Phase 2: on `n - t` valid VOTE1s fix `B_i` (the valid senders, sorted),
take the majority of their VOTE1 bits, and A-Cast REVOTE. -/
def phase2 (selfId n t : ℕ) (st1 : RoundState) (validVote1s : List ℕ) :
    RoundState × List Payload :=
  if st1.sentVote1 = true ∧ st1.sentRevote = false ∧
      n - t ≤ validVote1s.length then
    let B := List.insertionSort (· ≤ ·) validVote1s
    let v2 := majority (validVote1s.map (fun s =>
      ((List.lookup s st1.receivedVote1).getD ([], 0)).2))
    ({ st1 with myB := B, sentRevote := true },
     [⟨.revote, selfId, v2, B, st1.round⟩])
  else (st1, [])

/-- Phase 3: on `n - t` valid REVOTEs fix `C_i` and finish with the decision
value and confidence. -/
def phase3 (n t : ℕ) (st2 : RoundState) (validVote1s : List ℕ) :
    RoundState × List Result :=
  let validRevotes := (st2.receivedRevote.filter
    (fun e => subsetB e.2.1 validVote1s)).map Prod.fst
  if st2.sentRevote = true ∧ n - t ≤ validRevotes.length then
    let st3 := { st2 with myC := List.insertionSort (· ≤ ·) validRevotes }
    let bBits := st3.myB.map (fun j =>
      ((List.lookup j st3.receivedVote1).getD ([], 0)).2)
    let cBits := st3.myC.map (fun j =>
      ((List.lookup j st3.receivedRevote).getD ([], 0)).2)
    let d := decision bBits cBits
    ({ st3 with finished := true }, [⟨d.1, d.2, st3.round⟩])
  else (st2, [])

/-- `checkProgress` for one round state: the three phase checks in order,
threading the state mutations exactly as the sequential Go code does.
`allInputs` is the key set of `receivedInputs` at entry; `validVote1s` is
computed against it (not against `myA`), and the valid REVOTEs against
`validVote1s` (not against `myB`). -/
def checkProgress (selfId n t : ℕ) (st : RoundState) : StepOut :=
  let allInputs := st.receivedInputs.map Prod.fst
  let p1 := phase1 selfId n t st
  let st1 := p1.1
  let validVote1s := (st1.receivedVote1.filter
    (fun e => subsetB e.2.1 allInputs)).map Prod.fst
  let p2 := phase2 selfId n t st1 validVote1s
  let p3 := phase3 n t p2.1 validVote1s
  ⟨p3.1, p1.2 ++ p2.2, p3.2⟩

/-- `processDeliveredPayload` for the payload's round state. -/
def processDeliveredPayload (selfId n t : ℕ) (st : RoundState)
    (p : Payload) : StepOut :=
  if st.finished then ⟨st, [], []⟩ else
  let st1 := match p.ptype with
    | .input => { st with receivedInputs := upsert p.Sender p.Bit st.receivedInputs }
    | .vote1 => { st with receivedVote1 := upsert p.Sender (p.Set, p.Bit) st.receivedVote1 }
    | .revote => { st with receivedRevote := upsert p.Sender (p.Set, p.Bit) st.receivedRevote }
  checkProgress selfId n t st1

def runPayloads (selfId n t : ℕ) (st : RoundState) : List Payload → RoundState
  | [] => st
  | p :: rest =>
      runPayloads selfId n t (processDeliveredPayload selfId n t st p).state rest

end Vote

/-! ## ICC (services/icc.go), decision part -/

namespace ICC

/-- The fields of `ICCService` read or written by `checkDecision`. -/
structure State where
  u : ℕ
  myA : List ℕ
  myS : List ℕ
  sentAccept : Bool
  sentReconstruct : Bool
  receivedT : ℕ → Option (List ℕ)
  reconstructedValues : ℕ → ℕ → Option ℤ
  receivedFinalSets : List (ℕ × List ℕ × List ℕ)
  finished : Bool

structure Result where
  Coin : ℕ
deriving DecidableEq

/-- The inner `for k in T_j` sum: `none` when some reconstructed value is
missing (the Go `complete` flag). -/
def sumValues (st : State) (Tj : List ℕ) (j : ℕ) : Option ℤ :=
  Tj.foldl (fun acc k =>
    match acc, st.reconstructedValues k j with
    | some s, some v => some (s + v)
    | _, _ => none) (some 0)

/-- The `for j in H` loop: `none` when not all values are computed
(`allComputed = false`), otherwise `some hasZero` where `hasZero` records
whether some `v_j = (Σ values) mod u` equals zero. -/
def scanH (st : State) : List ℕ → Option Bool
  | [] => some false
  | j :: rest =>
      match st.receivedT j with
      | none => none
      | some Tj =>
          match sumValues st Tj j with
          | none => none
          | some sum =>
              match scanH st rest with
              | none => none
              | some hz => some (decide (sum % (st.u : ℤ) = 0) || hz)

/-- The per-pair guard of the decision loop. -/
def qualifies (st : State) (fs : ℕ × List ℕ × List ℕ) : Bool :=
  ((st.sentAccept && st.sentReconstruct) && subsetB fs.2.1 st.myA) &&
    subsetB fs.2.2 st.myS

/-- The decision loop over `receivedFinalSets`, in storage order: the first
qualifying pair whose values are all computed decides. -/
def firstDecision (st : State) : List (ℕ × List ℕ × List ℕ) → Option Bool
  | [] => none
  | fs :: rest =>
      if qualifies st fs then
        match scanH st fs.2.1 with
        | some hz => some hz
        | none => firstDecision st rest
      else firstDecision st rest

/-- `checkDecision`: latched by `finished`; emits `ICCResult{coin}` with
coin `0` iff some `v_j` is zero. -/
def checkDecision (st : State) : State × List Result :=
  if st.finished then (st, [])
  else
    match firstDecision st st.receivedFinalSets with
    | some hz => ({ st with finished := true }, [⟨if hz then 0 else 1⟩])
    | none => (st, [])

end ICC

/-! ## ABA termination gadget (services/aba.go) -/

namespace ABA

/-- The fields of `ABAService` touched by `handleCompleteDelivery`. -/
structure State where
  completeCounts : ℤ → Finset ℤ
  decided : Bool
  decision : ℤ
  hasBroadcastComplete : Bool

/-- The relevant fields of `NewABAService`. -/
def initState : State :=
  ⟨fun _ => ∅, false, 0, false⟩

structure StepOut where
  state : State
  broadcasts : List (ℤ × ℤ)
  results : List ℤ

/-- `handleCompleteDelivery` on a parsed `CompletePayload{Sender, Value}`:
insert the sender, and on first threshold crossing decide, emit the result,
and broadcast our own COMPLETE if not yet done.  (`broadcastComplete` also
loops the fresh A-Cast `MSG` back into the local `acastComplete` service,
which only makes that instance send its ECHO — covered by the `ACast`
model.) -/
def handleCompleteDelivery (selfId : ℤ) (t : ℕ) (st : State)
    (sender value : ℤ) : StepOut :=
  let counts := Function.update st.completeCounts value
    (insert sender (st.completeCounts value))
  let st1 := { st with completeCounts := counts }
  if t + 1 ≤ (counts value).card ∧ st1.decided = false then
    let st2 := { st1 with decided := true, decision := value }
    if st2.hasBroadcastComplete = false then
      ⟨{ st2 with hasBroadcastComplete := true }, [(selfId, value)], [value]⟩
    else ⟨st2, [], [value]⟩
  else ⟨st1, [], []⟩

/-- Fold a sequence of delivered COMPLETE payloads, collecting results. -/
def runComplete (selfId : ℤ) (t : ℕ) (st : State) :
    List (ℤ × ℤ) → State × List ℤ
  | [] => (st, [])
  | (s, v) :: rest =>
      let out := handleCompleteDelivery selfId t st s v
      let r := runComplete selfId t out.state rest
      (r.1, out.results ++ r.2)

end ABA

/-! ## Network (services/network.go) -/

namespace Network

/-- `Network.Broadcast`: enqueue the message to the channel of every
registered peer (the loop ranges over the whole registry, so the sender's
own channel is included whenever the sender is registered). -/
def Broadcast {M : Type} (peers : List ℕ) (msg : M) : List (ℕ × M) :=
  peers.map (fun id => (id, msg))

end Network

/-! ## Helper lemmas -/

lemma tag_filter_eq {V : Type} (l : List V) (a u : String) (h : a = u) :
    ((l.map (fun v => (a, v))).filter (fun r => decide (r.1 = u))).length
      = l.length := by
  induction l with
  | nil => rfl
  | cons x xs ih => simp [h] at ih ⊢; omega

lemma tag_filter_ne {V : Type} (l : List V) (a u : String) (h : ¬ a = u) :
    ((l.map (fun v => (a, v))).filter (fun r => decide (r.1 = u))).length
      = 0 := by
  induction l with
  | nil => rfl
  | cons x xs ih => simp [h, ih]

/-- Each A-Cast handler step either emits no result and keeps the delivered
flag, or moves the flag from false to true and emits exactly the value. -/
lemma ACast.results_cases {V : Type} [DecidableEq V] (aid n t : ℕ)
    (inst : ACast.Instance V) (msg : ACast.Message V) :
    ((ACast.OnMessage aid n t inst msg).results = []
       ∧ (ACast.OnMessage aid n t inst msg).inst.delivered = inst.delivered)
    ∨ (inst.delivered = false
       ∧ (ACast.OnMessage aid n t inst msg).inst.delivered = true
       ∧ (ACast.OnMessage aid n t inst msg).results = [msg.Val]) := by
  unfold ACast.OnMessage
  by_cases h : inst.delivered
  · left; simp [h]
  · simp only [h]
    cases msg.type <;> simp only [] <;> split_ifs <;>
      simp_all [ACast.addToSet]

lemma ACast.delivered_noop {V : Type} [DecidableEq V] (aid n t : ℕ)
    (inst : ACast.Instance V) (msg : ACast.Message V)
    (h : inst.delivered = true) :
    ACast.OnMessage aid n t inst msg = ⟨inst, [], []⟩ := by
  unfold ACast.OnMessage; simp [h]

lemma ACast.run_filter_le {V : Type} [DecidableEq V] (aid n t : ℕ)
    (msgs : List (ACast.Message V)) :
    ∀ (svc : String → ACast.Instance V) (u : String),
    (((ACast.run aid n t svc msgs).2.filter (fun r => decide (r.1 = u))).length)
      ≤ (if (svc u).delivered then 0 else 1) := by
  induction msgs with
  | nil => intro svc u; simp [ACast.run]
  | cons msg rest ih =>
      intro svc u
      simp only [ACast.run, List.filter_append, List.length_append]
      by_cases hu : msg.UUID = u
      · subst hu
        have htail := ih (Function.update svc msg.UUID
          (ACast.OnMessage aid n t (svc msg.UUID) msg).inst) msg.UUID
        rw [Function.update_same] at htail
        rcases ACast.results_cases aid n t (svc msg.UUID) msg with
          ⟨h1, h2⟩ | ⟨h0, h1, h2⟩
        · rw [h2] at htail
          rw [tag_filter_eq _ _ _ rfl, h1]
          simp only [List.length_nil]
          omega
        · rw [h1] at htail
          rw [tag_filter_eq _ _ _ rfl, h2, h0]
          simp at htail ⊢
          exact htail
      · have htail := ih (Function.update svc msg.UUID
          (ACast.OnMessage aid n t (svc msg.UUID) msg).inst) u
        have hne : Function.update svc msg.UUID
            ((ACast.OnMessage aid n t (svc msg.UUID) msg).inst) u = svc u :=
          Function.update_noteq (fun hut => hu hut.symm) _ _
        rw [hne] at htail
        rw [tag_filter_ne _ _ _ hu]
        omega

/-! ## Claim theorems -/

/-- C3: for every A-Cast uuid and any sequence of MSG/ECHO/READY messages, a
node emits at most one Deliver for that uuid; and once the delivered flag is
set, handling any further message for that uuid leaves the instance
unchanged and causes no broadcast and no result. -/
theorem acast_single_delivery :
    (∀ (V : Type) (_ : DecidableEq V) (aid n t : ℕ) (inst : ACast.Instance V)
       (msg : ACast.Message V), inst.delivered = true →
         ACast.OnMessage aid n t inst msg = ⟨inst, [], []⟩)
    ∧ (∀ (V : Type) (_ : DecidableEq V) (aid n t : ℕ)
         (msgs : List (ACast.Message V)) (u : String),
         (((ACast.run aid n t (fun _ => ACast.NewInstance V) msgs).2.filter
            (fun r => decide (r.1 = u))).length ≤ 1)) := by
  constructor
  · intro V _ aid n t inst msg h
    exact ACast.delivered_noop aid n t inst msg h
  · intro V _ aid n t msgs u
    have := ACast.run_filter_le aid n t msgs (fun _ => ACast.NewInstance V) u
    simpa [ACast.NewInstance] using this

/-- Witness for C3 at a concrete delivered instance and a concrete run. -/
theorem acast_single_delivery_witness :
    ({ ACast.NewInstance ℕ with delivered := true } : ACast.Instance ℕ).delivered = true
    ∧ ACast.OnMessage 1 4 1
        ({ ACast.NewInstance ℕ with delivered := true }) ⟨.MSG, "u", 7, 2⟩
        = ⟨{ ACast.NewInstance ℕ with delivered := true }, [], []⟩
    ∧ (((ACast.run 1 4 1 (fun _ => ACast.NewInstance ℕ)
          [⟨.READY, "u", 7, 2⟩, ⟨.READY, "u", 7, 3⟩, ⟨.READY, "u", 7, 4⟩,
           ⟨.READY, "u", 7, 5⟩]).2.filter
        (fun r => decide (r.1 = "u"))).length ≤ 1) :=
  ⟨rfl,
   acast_single_delivery.1 ℕ inferInstance 1 4 1 _ _ rfl,
   acast_single_delivery.2 ℕ inferInstance 1 4 1 _ "u"⟩

/-- Per-step case analysis of `handleCompleteDelivery`. -/
lemma ABA.handle_cases (selfId : ℤ) (t : ℕ) (st : ABA.State)
    (sender value : ℤ) :
    ((ABA.handleCompleteDelivery selfId t st sender value).results = []
      ∧ (ABA.handleCompleteDelivery selfId t st sender value).state.decided
          = st.decided)
    ∨ (st.decided = false
      ∧ (ABA.handleCompleteDelivery selfId t st sender value).state.decided = true
      ∧ (ABA.handleCompleteDelivery selfId t st sender value).results = [value]) := by
  unfold ABA.handleCompleteDelivery
  dsimp only
  split_ifs with h1 h2 <;> simp_all

lemma ABA.run_le (selfId : ℤ) (t : ℕ) (msgs : List (ℤ × ℤ)) :
    ∀ st : ABA.State,
    (ABA.runComplete selfId t st msgs).2.length
      ≤ (if st.decided then 0 else 1) := by
  induction msgs with
  | nil => intro st; simp [ABA.runComplete]
  | cons m rest ih =>
      intro st
      obtain ⟨s, v⟩ := m
      simp only [ABA.runComplete, List.length_append]
      have htail := ih (ABA.handleCompleteDelivery selfId t st s v).state
      rcases ABA.handle_cases selfId t st s v with ⟨h1, h2⟩ | ⟨h0, h1, h2⟩
      · rw [h2] at htail
        rw [h1]
        simp only [List.length_nil]
        omega
      · rw [h1] at htail
        rw [h2, h0]
        simp at htail ⊢
        exact htail

/-- C4: on each delivered COMPLETE(sender, v) the node inserts the sender
into `complete_counts[v]`; at the first delivery where some count reaches
`t+1` while undecided it decides `v`, emits the decision, and (if it has not
broadcast its own COMPLETE yet) A-Casts COMPLETE(v) and latches the flag;
over any run the decision is emitted at most once. -/
theorem aba_complete_gadget :
    (∀ (selfId : ℤ) (t : ℕ) (st : ABA.State) (sender value : ℤ),
      (ABA.handleCompleteDelivery selfId t st sender value).state.completeCounts value
          = insert sender (st.completeCounts value)
      ∧ (t + 1 ≤ (insert sender (st.completeCounts value)).card →
          st.decided = false →
          (ABA.handleCompleteDelivery selfId t st sender value).state.decided = true
          ∧ (ABA.handleCompleteDelivery selfId t st sender value).state.decision = value
          ∧ (ABA.handleCompleteDelivery selfId t st sender value).results = [value]
          ∧ (st.hasBroadcastComplete = false →
              (ABA.handleCompleteDelivery selfId t st sender value).broadcasts
                  = [(selfId, value)]
              ∧ (ABA.handleCompleteDelivery selfId t st sender value).state.hasBroadcastComplete
                  = true)
          ∧ (st.hasBroadcastComplete = true →
              (ABA.handleCompleteDelivery selfId t st sender value).broadcasts = []))
      ∧ (¬ (t + 1 ≤ (insert sender (st.completeCounts value)).card ∧ st.decided = false) →
          (ABA.handleCompleteDelivery selfId t st sender value).results = []
          ∧ (ABA.handleCompleteDelivery selfId t st sender value).broadcasts = []
          ∧ (ABA.handleCompleteDelivery selfId t st sender value).state.decided
              = st.decided))
    ∧ (∀ (selfId : ℤ) (t : ℕ) (msgs : List (ℤ × ℤ)),
        (ABA.runComplete selfId t ABA.initState msgs).2.length ≤ 1) := by
  constructor
  · intro selfId t st sender value
    refine ⟨?_, ?_, ?_⟩
    · unfold ABA.handleCompleteDelivery
      dsimp only
      split_ifs <;> simp
    · intro hth hdec
      unfold ABA.handleCompleteDelivery
      dsimp only
      split_ifs with h1 h2 <;> simp_all
    · intro hng
      unfold ABA.handleCompleteDelivery
      dsimp only
      simp only [Function.update_same]
      simp only [if_neg hng]
      exact ⟨trivial, trivial, trivial⟩
  · intro selfId t msgs
    have := ABA.run_le selfId t msgs ABA.initState
    simpa [ABA.initState] using this

/-- Witness for C4: with `t = 1` and two COMPLETE(·, 1) deliveries the node
decides `1` exactly once, broadcasting its own COMPLETE. -/
theorem aba_complete_gadget_witness :
    (1 + 1 ≤ (insert (2 : ℤ) ((ABA.handleCompleteDelivery 1 1 ABA.initState 3 1).state.completeCounts 1)).card →
      (ABA.handleCompleteDelivery 1 1 (ABA.handleCompleteDelivery 1 1 ABA.initState 3 1).state 2 1).state.decided = false →
      True)
    ∧ (ABA.handleCompleteDelivery 1 1 ABA.initState 3 1).state.completeCounts 1
        = insert 3 (ABA.initState.completeCounts 1)
    ∧ ((ABA.handleCompleteDelivery 1 1 ABA.initState 3 1).results = []
        ∧ (ABA.handleCompleteDelivery 1 1 ABA.initState 3 1).broadcasts = []
        ∧ (ABA.handleCompleteDelivery 1 1 ABA.initState 3 1).state.decided
            = ABA.initState.decided)
    ∧ (ABA.runComplete 1 1 ABA.initState [(3, 1), (2, 1), (4, 1)]).2.length ≤ 1 :=
  ⟨fun _ _ => trivial,
   (aba_complete_gadget.1 1 1 ABA.initState 3 1).1,
   (aba_complete_gadget.1 1 1 ABA.initState 3 1).2.2 (by decide),
   aba_complete_gadget.2 1 1 [(3, 1), (2, 1), (4, 1)]⟩

/-- Literal-fusion helper for uuid strings. -/
lemma string_fuse_equal (A : String) : A ++ "-" ++ "0" ++ "-[" = A ++ "-0-[" := by
  rw [String.append_assoc, String.append_assoc]; rfl

/-- C7 (amended): the uuid `startACast` chooses is `"{InstanceID}-MSET"`,
`"{InstanceID}-REVEAL-{RevealSender}"` and `"{InstanceID}-READY-{RevealSender}"`
for those payloads (the reveal sender always being the local id at the call
sites), but for an EQUAL(i, j) payload it is the Go default format
`"{InstanceID}-0-[{i} {j}]"`, not `"{InstanceID}-EQUAL-{i}-{j}"`. -/
theorem ivss_uuid_structure (selfId : ℕ) (p : IVSS.Payload) :
    (p.ptype = .equal →
      IVSS.startACastUuid selfId p =
        p.InstanceID ++ "-0-[" ++ toString p.EqualPair.1 ++ " " ++
          toString p.EqualPair.2 ++ "]")
    ∧ (p.ptype = .mset →
        IVSS.startACastUuid selfId p = p.InstanceID ++ "-MSET")
    ∧ (p.ptype = .reveal → p.RevealSender = selfId →
        IVSS.startACastUuid selfId p =
          p.InstanceID ++ "-REVEAL-" ++ toString p.RevealSender)
    ∧ (p.ptype = .ready → p.RevealSender = selfId →
        IVSS.startACastUuid selfId p =
          p.InstanceID ++ "-READY-" ++ toString p.RevealSender) := by
  obtain ⟨iid, pt, ep, ms, rp, rs⟩ := p
  refine ⟨?_, ?_, ?_, ?_⟩
  · intro h; cases h
    show iid ++ "-" ++ toString (IVSS.PayloadType.code .equal) ++ "-[" ++ _ ++ " " ++ _ ++ "]" = _
    rw [show toString (IVSS.PayloadType.code .equal) = "0" from rfl,
        string_fuse_equal]
  · intro h; cases h; rfl
  · intro h hs; cases h; cases hs; rfl
  · intro h hs; cases h; cases hs; rfl

/-- Witness for C7's amended theorem at concrete payloads. -/
theorem ivss_uuid_structure_witness :
    IVSS.startACastUuid 1 (IVSS.mkEqual "ICC-1-2-3" 1 4) = "ICC-1-2-3-0-[1 4]"
    ∧ IVSS.startACastUuid 1 (IVSS.mkMSet "ICC-1-2-3" [1, 2, 3]) = "ICC-1-2-3-MSET"
    ∧ IVSS.startACastUuid 5 (IVSS.mkReveal "ICC-1-2-3" (some [7]) 5)
        = "ICC-1-2-3-REVEAL-5"
    ∧ IVSS.startACastUuid 5 (IVSS.mkReady "ICC-1-2-3" 5) = "ICC-1-2-3-READY-5" :=
  ⟨by rw [(ivss_uuid_structure 1 (IVSS.mkEqual "ICC-1-2-3" 1 4)).1 rfl]; rfl,
   (ivss_uuid_structure 1 (IVSS.mkMSet "ICC-1-2-3" [1, 2, 3])).2.1 rfl,
   (ivss_uuid_structure 5 (IVSS.mkReveal "ICC-1-2-3" (some [7]) 5)).2.2.1 rfl rfl,
   (ivss_uuid_structure 5 (IVSS.mkReady "ICC-1-2-3" 5)).2.2.2 rfl rfl⟩

/-- C7 counterexample: the EQUAL(2, 3) uuid at instance "X" is "X-0-[2 3]",
not the "X-EQUAL-2-3" the claim requires. -/
theorem ivss_uuid_counterexample :
    IVSS.startACastUuid 2 (IVSS.mkEqual "X" 2 3) = "X-0-[2 3]"
    ∧ IVSS.startACastUuid 2 (IVSS.mkEqual "X" 2 3) ≠ "X-EQUAL-2-3" := by
  constructor
  · rfl
  · decide

/-- Modelled from the spec's words, for comparison with `IVSS.buildMSet`:
starting from empty `M`, for each candidate `k ∈ 1..n` in order, add `k` iff
for every `m` already in `M` both `(k,m)` and `(m,k)` are in
`completed_equals` and `{k,m}` is not flagged in the certification
registry. -/
def specGreedyM (n : ℕ) (cp : CertificationProtocol) (inst : IVSS.Instance) :
    List ℕ :=
  (List.range' 1 n).foldl (fun M k =>
    if (∀ m ∈ M, inst.completedEquals (k, m) = true
          ∧ inst.completedEquals (m, k) = true
          ∧ cp.IsFaultyPair k m = false)
    then M ++ [k] else M) []

lemma foldl_if_append_sublist (f : List ℕ → ℕ → Prop)
    [∀ M k, Decidable (f M k)] :
    ∀ (l acc : List ℕ), ∃ s,
      l.foldl (fun M k => if f M k then M ++ [k] else M) acc = acc ++ s
      ∧ s.Sublist l := by
  intro l
  induction l with
  | nil => intro acc; exact ⟨[], by simp⟩
  | cons k rest ih =>
      intro acc
      simp only [List.foldl_cons]
      by_cases h : f acc k
      · rw [if_pos h]
        obtain ⟨s, hs, hsub⟩ := ih (acc ++ [k])
        exact ⟨k :: s, by simpa using hs, by simpa using hsub.cons₂ k⟩
      · rw [if_neg h]
        obtain ⟨s, hs, hsub⟩ := ih acc
        exact ⟨s, hs, hsub.cons k⟩

lemma buildMSet_eq_specGreedyM (n : ℕ) (cp : CertificationProtocol)
    (inst : IVSS.Instance) :
    IVSS.buildMSet n cp inst = specGreedyM n cp inst := by
  unfold IVSS.buildMSet specGreedyM
  congr 1
  funext M k
  by_cases h : ∀ m ∈ M, inst.completedEquals (k, m) = true
      ∧ inst.completedEquals (m, k) = true ∧ cp.IsFaultyPair k m = false
  · rw [if_pos h, if_pos]
    simp only [List.all_eq_true]
    intro m hm
    obtain ⟨h1, h2, h3⟩ := h m hm
    simp [h1, h2, h3]
  · rw [if_neg h, if_neg]
    intro hall
    apply h
    intro m hm
    have := (List.all_eq_true.1 hall) m hm
    simp only [Bool.and_eq_true, Bool.not_eq_true'] at this
    exact ⟨this.1.1, this.1.2, this.2⟩

lemma specGreedyM_sorted (n : ℕ) (cp : CertificationProtocol)
    (inst : IVSS.Instance) :
    List.Sorted (· ≤ ·) (specGreedyM n cp inst) := by
  unfold specGreedyM
  obtain ⟨s, hs, hsub⟩ := foldl_if_append_sublist
    (fun M k => ∀ m ∈ M, inst.completedEquals (k, m) = true
      ∧ inst.completedEquals (m, k) = true ∧ cp.IsFaultyPair k m = false)
    (List.range' 1 n) []
  rw [hs]
  simp only [List.nil_append]
  exact List.Pairwise.sublist hsub
    ((List.pairwise_lt_range' 1 n).imp (fun h => le_of_lt h))

/-- C2: the set the dealer A-Casts in its MSET payload is the one produced
by the spec's greedy single pass over candidates 1..n; the MSET is broadcast
exactly when that set has size at least `n - t`, sorted ascending, under the
`"{InstanceID}-MSET"` uuid. -/
theorem ivss_candidate_set_greedy (selfId n t : ℕ)
    (cp : CertificationProtocol) (inst : IVSS.Instance)
    (hdeal : selfId = inst.dealer) (hnc : inst.sharingCompleted = false) :
    IVSS.buildMSet n cp inst = specGreedyM n cp inst
    ∧ List.Sorted (· ≤ ·) (specGreedyM n cp inst)
    ∧ (n - t ≤ (specGreedyM n cp inst).length →
        IVSS.checkCandidateSet selfId n t cp inst
          = [IVSS.Out.acast (inst.id ++ "-MSET")
              (IVSS.mkMSet inst.id (specGreedyM n cp inst))])
    ∧ ((specGreedyM n cp inst).length < n - t →
        IVSS.checkCandidateSet selfId n t cp inst = []) := by
  have heq := buildMSet_eq_specGreedyM n cp inst
  have hsort := specGreedyM_sorted n cp inst
  refine ⟨heq, hsort, ?_, ?_⟩
  · intro hlen
    unfold IVSS.checkCandidateSet
    rw [if_neg (by simp [hdeal]), if_neg (by simp [hnc]), heq, if_pos hlen,
        hsort.insertionSort_eq]
    rfl
  · intro hlen
    unfold IVSS.checkCandidateSet
    rw [if_neg (by simp [hdeal]), if_neg (by simp [hnc]), heq,
        if_neg (by omega)]

/-- Witness for C2: a 2-node instance where both EQUALs are delivered in both
orders; the dealer broadcasts MSET [1, 2]. -/
theorem ivss_candidate_set_greedy_witness :
    (1 : ℕ) = ({ IVSS.NewInstance "I" 1 with completedEquals := fun _ => true } : IVSS.Instance).dealer
    ∧ ({ IVSS.NewInstance "I" 1 with completedEquals := fun _ => true } : IVSS.Instance).sharingCompleted = false
    ∧ (2 - 0 ≤ (specGreedyM 2 ⟨∅⟩ { IVSS.NewInstance "I" 1 with completedEquals := fun _ => true }).length)
    ∧ IVSS.checkCandidateSet 1 2 0 ⟨∅⟩
        { IVSS.NewInstance "I" 1 with completedEquals := fun _ => true }
        = [IVSS.Out.acast ("I" ++ "-MSET")
            (IVSS.mkMSet "I" (specGreedyM 2 ⟨∅⟩
              { IVSS.NewInstance "I" 1 with completedEquals := fun _ => true }))] :=
  ⟨rfl, rfl, by decide,
   (ivss_candidate_set_greedy 1 2 0 ⟨∅⟩
      { IVSS.NewInstance "I" 1 with completedEquals := fun _ => true }
      rfl rfl).2.2.1 (by decide)⟩

/-- C10: `Network.Broadcast` enqueues the message to every registered peer
(the sender included when registered) and to nobody else; `StartSharing`
routes each private slice through `Broadcast` as a `Direct_Share` with only
a `To` field selecting the recipient; and the IVSS handler drops a direct
message whose `To` differs from the local id without touching any state and
without emitting anything. -/
theorem network_broadcast_confidentiality :
    (∀ (M : Type) (peers : List ℕ) (msg : M) (id : ℕ),
        id ∈ peers → (id, msg) ∈ Network.Broadcast peers msg)
    ∧ (∀ (M : Type) (peers : List ℕ) (msg : M) (id : ℕ) (m : M),
        (id, m) ∈ Network.Broadcast peers msg → id ∈ peers ∧ m = msg)
    ∧ (∀ (pr t selfId n : ℕ) (instanceID : String) (coeffs : ℕ → ℕ → ℤ),
        (IVSS.StartSharing pr t selfId n instanceID coeffs).map
            (fun o => match o with
              | .direct m => some (m.DirectType, m.To, m.From)
              | .acast _ _ => none)
          = (List.range' 1 n).map (fun k => some (.Share, k, selfId)))
    ∧ (∀ (pr selfId n : ℕ) (inst : IVSS.Instance) (msg : IVSS.DirectMsg),
        msg.To ≠ selfId →
          IVSS.OnMessage pr selfId n inst msg = ⟨inst, [], []⟩) := by
  refine ⟨?_, ?_, ?_, ?_⟩
  · intro M peers msg id hid
    exact List.mem_map.2 ⟨id, hid, rfl⟩
  · intro M peers msg id m hm
    obtain ⟨x, hx, hxe⟩ := List.mem_map.1 hm
    cases hxe
    exact ⟨hx, rfl⟩
  · intro pr t selfId n instanceID coeffs
    unfold IVSS.StartSharing
    rw [List.map_map]
    rfl
  · intro pr selfId n inst msg hto
    unfold IVSS.OnMessage
    rw [if_pos hto]

/-- Witness for C10 at a concrete registry and message. -/
theorem network_broadcast_confidentiality_witness :
    ((2 : ℕ) ∈ [1, 2, 3] ∧ ((2 : ℕ), "m") ∈ Network.Broadcast [1, 2, 3] "m")
    ∧ (((3 : ℕ), "m") ∈ Network.Broadcast [1, 2, 3] "m" → (3 : ℕ) ∈ [1, 2, 3] ∧ "m" = "m")
    ∧ ((⟨.Share, 2, 1, "I", some [5], none, 0⟩ : IVSS.DirectMsg).To ≠ 3
        ∧ IVSS.OnMessage Utils.Prime 3 4 (IVSS.NewInstance "I" 0)
            ⟨.Share, 2, 1, "I", some [5], none, 0⟩
          = ⟨IVSS.NewInstance "I" 0, [], []⟩) :=
  ⟨⟨by decide, network_broadcast_confidentiality.1 String [1, 2, 3] "m" 2 (by decide)⟩,
   fun hm => network_broadcast_confidentiality.2.1 String [1, 2, 3] "m" 3 "m" hm,
   ⟨by decide, network_broadcast_confidentiality.2.2.2 Utils.Prime 3 4
      (IVSS.NewInstance "I" 0) ⟨.Share, 2, 1, "I", some [5], none, 0⟩ (by decide)⟩⟩

lemma ACast.addToSet_idem {V : Type} [DecidableEq V]
    (m : Option (V → Finset ℕ)) (val : V) (s : ℕ) :
    ACast.addToSet (some (ACast.addToSet m val s).1) val s
      = ACast.addToSet m val s := by
  unfold ACast.addToSet
  simp only [Option.getD_some]
  have h2 : insert s ((Function.update (m.getD fun _ => ∅) val
      (insert s ((m.getD fun _ => ∅) val))) val)
      = (Function.update (m.getD fun _ => ∅) val
          (insert s ((m.getD fun _ => ∅) val))) val := by
    rw [Function.update_same]
    exact Finset.insert_idem s _
  rw [h2, Function.update_eq_self]

lemma upsert_idem {α : Type} (k : ℕ) (v : α) (l : List (ℕ × α)) :
    upsert k v (upsert k v l) = upsert k v l := by
  induction l with
  | nil => simp [upsert]
  | cons kv rest ih =>
      obtain ⟨k', v'⟩ := kv
      by_cases h : k' = k
      · simp [upsert, h]
      · simp [upsert, h, ih]

lemma ACast.replay_noop {V : Type} [DecidableEq V] (aid n t : ℕ)
    (inst : ACast.Instance V) (msg : ACast.Message V) :
    ACast.OnMessage aid n t ((ACast.OnMessage aid n t inst msg).inst) msg
      = ⟨(ACast.OnMessage aid n t inst msg).inst, [], []⟩ := by
  obtain ⟨ty, uuid, val, fr⟩ := msg
  cases ty <;>
    simp only [ACast.OnMessage, ACast.addToSet_idem] <;>
    split_ifs <;>
    (try simp_all [ACast.addToSet_idem]) <;>
    omega

lemma ABA.complete_replay_noop (selfId : ℤ) (t : ℕ) (st : ABA.State)
    (sender value : ℤ) :
    ABA.handleCompleteDelivery selfId t
        ((ABA.handleCompleteDelivery selfId t st sender value).state) sender value
      = ⟨(ABA.handleCompleteDelivery selfId t st sender value).state, [], []⟩ := by
  unfold ABA.handleCompleteDelivery
  dsimp only
  simp only [Function.update_same, Finset.insert_idem, Function.update_idem]
  split_ifs <;> simp_all

lemma IVSS.direct_replay (pr selfId n : ℕ) (inst : IVSS.Instance)
    (msg : IVSS.DirectMsg) :
    (IVSS.OnMessage pr selfId n
        ((IVSS.OnMessage pr selfId n inst msg).inst) msg).inst
      = (IVSS.OnMessage pr selfId n inst msg).inst
    ∧ (IVSS.OnMessage pr selfId n
        ((IVSS.OnMessage pr selfId n inst msg).inst) msg).results = [] := by
  by_cases hto : msg.To ≠ selfId
  · unfold IVSS.OnMessage
    rw [if_pos hto]
    rw [if_pos hto]
    exact ⟨rfl, rfl⟩
  · cases hty : msg.DirectType with
    | Share =>
        unfold IVSS.OnMessage
        rw [if_neg hto, hty]
        rw [if_neg hto]
        simp
    | Point =>
        cases hrp : inst.receivedPoly with
        | none =>
            unfold IVSS.OnMessage
            rw [if_neg hto, hty]
            simp only [hrp]
            rw [if_neg hto]
            simp [upsert_idem]
        | some poly =>
            unfold IVSS.OnMessage
            rw [if_neg hto, hty]
            simp only [hrp]
            rw [if_neg hto]
            simp [hrp]

/-- C6 (amended): replaying a message at the A-Cast handler or at the ABA
COMPLETE handler is a complete no-op; replaying an IVSS direct Share or
Point message leaves the instance state unchanged and emits no result,
although it re-emits the corresponding broadcasts. -/
theorem handler_replay_idempotence :
    (∀ (V : Type) (_ : DecidableEq V) (aid n t : ℕ) (inst : ACast.Instance V)
        (msg : ACast.Message V),
        ACast.OnMessage aid n t ((ACast.OnMessage aid n t inst msg).inst) msg
          = ⟨(ACast.OnMessage aid n t inst msg).inst, [], []⟩)
    ∧ (∀ (selfId : ℤ) (t : ℕ) (st : ABA.State) (sender value : ℤ),
        ABA.handleCompleteDelivery selfId t
            ((ABA.handleCompleteDelivery selfId t st sender value).state) sender value
          = ⟨(ABA.handleCompleteDelivery selfId t st sender value).state, [], []⟩)
    ∧ (∀ (pr selfId n : ℕ) (inst : IVSS.Instance) (msg : IVSS.DirectMsg),
        (IVSS.OnMessage pr selfId n
            ((IVSS.OnMessage pr selfId n inst msg).inst) msg).inst
          = (IVSS.OnMessage pr selfId n inst msg).inst
        ∧ (IVSS.OnMessage pr selfId n
            ((IVSS.OnMessage pr selfId n inst msg).inst) msg).results = []) :=
  ⟨fun V _ aid n t inst msg => ACast.replay_noop aid n t inst msg,
   fun selfId t st sender value => ABA.complete_replay_noop selfId t st sender value,
   fun pr selfId n inst msg => IVSS.direct_replay pr selfId n inst msg⟩

/-- The valid-VOTE1 sender list a `checkProgress` call works with: senders
whose VOTE1 set is contained in the key set of `receivedInputs` at the time
of the call (not in the fixed `myA`). -/
def Vote.validVote1 (st : Vote.RoundState) : List ℕ :=
  (st.receivedVote1.filter
    (fun e => subsetB e.2.1 (st.receivedInputs.map Prod.fst))).map Prod.fst

/-- The valid-REVOTE sender list: senders whose REVOTE set is contained in
the current `validVote1` list (not in the fixed `myB`). -/
def Vote.validRevote (st : Vote.RoundState) : List ℕ :=
  (st.receivedRevote.filter
    (fun e => subsetB e.2.1 (Vote.validVote1 st))).map Prod.fst

lemma Vote.phase1_skip (selfId n t : ℕ) (st : Vote.RoundState)
    (h1 : st.sentVote1 = true) :
    Vote.phase1 selfId n t st = (st, []) := by
  unfold Vote.phase1
  rw [if_neg (by simp [h1])]

lemma Vote.phase2_fire (selfId n t : ℕ) (st1 : Vote.RoundState) (v : List ℕ)
    (h : st1.sentVote1 = true ∧ st1.sentRevote = false ∧ n - t ≤ v.length) :
    Vote.phase2 selfId n t st1 v
      = ({ st1 with myB := List.insertionSort (· ≤ ·) v, sentRevote := true },
         [⟨.revote, selfId, Vote.majority (v.map (fun s =>
            ((List.lookup s st1.receivedVote1).getD ([], 0)).2)),
           List.insertionSort (· ≤ ·) v, st1.round⟩]) := by
  unfold Vote.phase2
  rw [if_pos h]

lemma Vote.phase3_proj (n t : ℕ) (st2 : Vote.RoundState) (v : List ℕ) :
    ((Vote.phase3 n t st2 v).1.myB = st2.myB
      ∧ (Vote.phase3 n t st2 v).1.sentRevote = st2.sentRevote)
    ∧ (st2.sentRevote = true →
        n - t ≤ ((st2.receivedRevote.filter
          (fun e => subsetB e.2.1 v)).map Prod.fst).length →
        (Vote.phase3 n t st2 v).1.myC
          = List.insertionSort (· ≤ ·) ((st2.receivedRevote.filter
              (fun e => subsetB e.2.1 v)).map Prod.fst)) := by
  unfold Vote.phase3
  dsimp only
  split_ifs with h
  · exact ⟨⟨rfl, rfl⟩, fun _ _ => rfl⟩
  · exact ⟨⟨rfl, rfl⟩, fun ha hb => absurd ⟨ha, hb⟩ h⟩

lemma mem_keys_filter_subsetB (l : List (ℕ × (List ℕ × ℤ))) (sup : List ℕ)
    (j : ℕ) :
    (j ∈ (l.filter (fun e => subsetB e.2.1 sup)).map Prod.fst)
      ↔ ∃ e : List ℕ × ℤ, (j, e) ∈ l ∧ ∀ x ∈ e.1, x ∈ sup := by
  constructor
  · intro hmem
    obtain ⟨⟨k, e⟩, hke, hfst⟩ := List.mem_map.1 hmem
    cases hfst
    obtain ⟨hin, hp⟩ := List.mem_filter.1 hke
    refine ⟨e, hin, ?_⟩
    intro x hx
    have := List.all_eq_true.1 hp x hx
    exact List.elem_iff.1 this
  · rintro ⟨e, hin, hsub⟩
    refine List.mem_map.2 ⟨(j, e), List.mem_filter.2 ⟨hin, ?_⟩, rfl⟩
    show List.all _ _ = true
    rw [List.all_eq_true]
    intro x hx
    exact List.elem_iff.2 (hsub x hx)

/-- C1 (amended): when phase 2 fires, `B_i` is the sorted list of exactly the
senders whose VOTE1 set is contained in the current received-INPUT key set
(not in the fixed `A_i`), and it is fixed at the first call where this valid
set reaches `n - t`; likewise `C_i` collects the senders whose REVOTE set is
contained in the current valid-VOTE1 list (not in `B_i`). -/
theorem vote_set_formation (selfId n t : ℕ) (st : Vote.RoundState)
    (h1 : st.sentVote1 = true) (h2 : st.sentRevote = false)
    (hB : n - t ≤ (Vote.validVote1 st).length) :
    (Vote.checkProgress selfId n t st).state.myB
        = List.insertionSort (· ≤ ·) (Vote.validVote1 st)
    ∧ (∀ j, j ∈ (Vote.checkProgress selfId n t st).state.myB ↔
         ∃ e : List ℕ × ℤ, (j, e) ∈ st.receivedVote1 ∧
           ∀ x ∈ e.1, x ∈ st.receivedInputs.map Prod.fst)
    ∧ (Vote.checkProgress selfId n t st).state.sentRevote = true
    ∧ (n - t ≤ (Vote.validRevote st).length →
        (Vote.checkProgress selfId n t st).state.myC
            = List.insertionSort (· ≤ ·) (Vote.validRevote st)
        ∧ (∀ j, j ∈ (Vote.checkProgress selfId n t st).state.myC ↔
             ∃ e : List ℕ × ℤ, (j, e) ∈ st.receivedRevote ∧
               ∀ x ∈ e.1, x ∈ Vote.validVote1 st)) := by
  have hmain : (Vote.checkProgress selfId n t st).state.myB
        = List.insertionSort (· ≤ ·) (Vote.validVote1 st)
      ∧ (Vote.checkProgress selfId n t st).state.sentRevote = true
      ∧ (n - t ≤ (Vote.validRevote st).length →
          (Vote.checkProgress selfId n t st).state.myC
            = List.insertionSort (· ≤ ·) (Vote.validRevote st)) := by
    unfold Vote.checkProgress
    dsimp only
    rw [Vote.phase1_skip selfId n t st h1]
    dsimp only
    rw [Vote.phase2_fire selfId n t st
      ((st.receivedVote1.filter
        (fun e => subsetB e.2.1 (st.receivedInputs.map Prod.fst))).map Prod.fst)
      ⟨h1, h2, by exact hB⟩]
    dsimp only
    refine ⟨?_, ?_, fun hC => ?_⟩
    · exact (Vote.phase3_proj n t _ _).1.1
    · exact (Vote.phase3_proj n t _ _).1.2
    · exact (Vote.phase3_proj n t _ _).2 rfl (by exact hC)
  refine ⟨hmain.1, ?_, hmain.2.1, ?_⟩
  · intro j
    rw [hmain.1, List.mem_insertionSort]
    exact mem_keys_filter_subsetB _ _ j
  · intro hC
    refine ⟨hmain.2.2 hC, ?_⟩
    intro j
    rw [hmain.2.2 hC, List.mem_insertionSort]
    exact mem_keys_filter_subsetB _ _ j

def voteWitnessState : Vote.RoundState :=
  ⟨1, [(1, 1), (2, 1), (3, 1)], [1, 2, 3], true,
   [(1, ([1, 2, 3], 1)), (2, ([1, 2, 3], 1)), (3, ([1, 2, 3], 1))], [], false,
   [(1, ([1, 2, 3], 1)), (2, ([1, 2, 3], 1)), (3, ([1, 2, 3], 1))], [], false⟩

/-- Witness for C1's amended theorem at a concrete round state. -/
theorem vote_set_formation_witness :
    (Vote.checkProgress 1 4 1 voteWitnessState).state.myB
        = List.insertionSort (· ≤ ·) (Vote.validVote1 voteWitnessState)
    ∧ (∀ j, j ∈ (Vote.checkProgress 1 4 1 voteWitnessState).state.myB ↔
         ∃ e : List ℕ × ℤ, (j, e) ∈ voteWitnessState.receivedVote1 ∧
           ∀ x ∈ e.1, x ∈ voteWitnessState.receivedInputs.map Prod.fst)
    ∧ (Vote.checkProgress 1 4 1 voteWitnessState).state.sentRevote = true
    ∧ (4 - 1 ≤ (Vote.validRevote voteWitnessState).length →
        (Vote.checkProgress 1 4 1 voteWitnessState).state.myC
            = List.insertionSort (· ≤ ·) (Vote.validRevote voteWitnessState)
        ∧ (∀ j, j ∈ (Vote.checkProgress 1 4 1 voteWitnessState).state.myC ↔
             ∃ e : List ℕ × ℤ, (j, e) ∈ voteWitnessState.receivedRevote ∧
               ∀ x ∈ e.1, x ∈ Vote.validVote1 voteWitnessState)) :=
  vote_set_formation 1 4 1 voteWitnessState rfl rfl (by decide)

def c1trace : List Vote.Payload :=
  [⟨.input, 1, 1, [], 1⟩, ⟨.input, 2, 1, [], 1⟩, ⟨.input, 3, 1, [], 1⟩,
   ⟨.input, 4, 0, [], 1⟩,
   ⟨.vote1, 1, 1, [1, 2, 3], 1⟩, ⟨.vote1, 2, 1, [1, 2, 3], 1⟩,
   ⟨.vote1, 4, 1, [1, 2, 3, 4], 1⟩]

/-- C1 counterexample: a reachable delivery trace (n = 4, t = 1) in which
the node fixed `A_i = [1,2,3]`, a fourth INPUT arrived afterwards, and the
code then forms `B_i = [1,2,4]` although sender 4's VOTE1 set `[1,2,3,4]`
is not a subset of `A_i`. -/
theorem vote_set_formation_counterexample :
    (Vote.runPayloads 1 4 1 (Vote.newRoundState 1) c1trace).myA = [1, 2, 3]
    ∧ (Vote.runPayloads 1 4 1 (Vote.newRoundState 1) c1trace).myB = [1, 2, 4]
    ∧ (4 : ℕ) ∈ (Vote.runPayloads 1 4 1 (Vote.newRoundState 1) c1trace).myB
    ∧ List.lookup 4 (Vote.runPayloads 1 4 1 (Vote.newRoundState 1) c1trace).receivedVote1
        = some ([1, 2, 3, 4], (1 : ℤ))
    ∧ subsetB [1, 2, 3, 4]
        (Vote.runPayloads 1 4 1 (Vote.newRoundState 1) c1trace).myA = false := by
  decide

/-- The value `v_j = (Σ_{k ∈ received_T[j]} value[k][j]) mod u` of the spec. -/
def ICC.specVj (st : ICC.State) (j : ℕ) : ℤ :=
  (((st.receivedT j).getD []).map
    (fun k => (st.reconstructedValues k j).getD 0)).sum % (st.u : ℤ)

lemma ICC.sumValues_fold (st : ICC.State) (j : ℕ) :
    ∀ (Tj : List ℕ) (a : ℤ),
    (∀ k ∈ Tj, (st.reconstructedValues k j).isSome = true) →
    Tj.foldl (fun acc k =>
      match acc, st.reconstructedValues k j with
      | some s, some v => some (s + v)
      | _, _ => none) (some a)
      = some (a + (Tj.map (fun k => (st.reconstructedValues k j).getD 0)).sum) := by
  intro Tj
  induction Tj with
  | nil => intro a _; simp
  | cons k rest ih =>
      intro a h
      obtain ⟨v, hv⟩ := Option.isSome_iff_exists.1 (h k (by simp))
      simp only [List.foldl_cons, hv]
      rw [ih (a + v) (fun k' hk' => h k' (by simp [hk']))]
      simp [hv, add_assoc]

lemma ICC.sumValues_eq (st : ICC.State) (Tj : List ℕ) (j : ℕ)
    (h : ∀ k ∈ Tj, (st.reconstructedValues k j).isSome = true) :
    ICC.sumValues st Tj j
      = some ((Tj.map (fun k => (st.reconstructedValues k j).getD 0)).sum) := by
  have := ICC.sumValues_fold st j Tj 0 h
  simpa [ICC.sumValues] using this

lemma ICC.scanH_eq (st : ICC.State) (H : List ℕ)
    (hc : ∀ j ∈ H, (st.receivedT j).isSome = true
      ∧ ∀ k ∈ (st.receivedT j).getD [], (st.reconstructedValues k j).isSome = true) :
    ICC.scanH st H = some (decide (∃ j ∈ H, ICC.specVj st j = 0)) := by
  induction H with
  | nil => simp [ICC.scanH]
  | cons j rest ih =>
      obtain ⟨hj, hk⟩ := hc j (by simp)
      obtain ⟨Tj, hTj⟩ := Option.isSome_iff_exists.1 hj
      rw [hTj] at hk
      simp only [Option.getD_some] at hk
      rw [ICC.scanH, hTj]
      simp only [ICC.sumValues_eq st Tj j hk,
          ih (fun j' hj' => hc j' (by simp [hj']))]
      have hvj : ICC.specVj st j
          = (Tj.map (fun k => (st.reconstructedValues k j).getD 0)).sum % (st.u : ℤ) := by
        unfold ICC.specVj
        rw [hTj]
        rfl
      simp [hvj, List.exists_mem_cons_iff, Bool.decide_or, Bool.or_comm]

lemma ICC.firstDecision_append (st : ICC.State)
    (pre : List (ℕ × List ℕ × List ℕ)) (fs : ℕ × List ℕ × List ℕ)
    (post : List (ℕ × List ℕ × List ℕ))
    (hpre : ∀ fs' ∈ pre, ICC.qualifies st fs' = false
      ∨ ICC.scanH st fs'.2.1 = none)
    (hq : ICC.qualifies st fs = true) (hz : Bool)
    (hscan : ICC.scanH st fs.2.1 = some hz) :
    ICC.firstDecision st (pre ++ fs :: post) = some hz := by
  induction pre with
  | nil => simp [ICC.firstDecision, hq, hscan]
  | cons a pre ih =>
      have htail := ih (fun f hf => hpre f (by simp [hf]))
      rcases hpre a (by simp) with ha | ha
      · simpa [ICC.firstDecision, ha] using htail
      · by_cases hqa : ICC.qualifies st a = true
        · simpa [ICC.firstDecision, hqa, ha] using htail
        · simpa [ICC.firstDecision, hqa] using htail

/-- C5: once `my_A` and `my_S` are fixed, a decision-check that finds a first
stored FINAL_SETS pair `(H, S)` with `H ⊆ my_A`, `S ⊆ my_S` and all values
for `H` reconstructed emits `ICCResult` with coin 0 iff some
`v_j = (Σ_{k ∈ T_j} value[k][j]) mod u` is zero (coin 1 otherwise), latching
`finished`; with `finished` latched the check ignores everything. -/
theorem icc_decision_check (st : ICC.State)
    (pre post : List (ℕ × List ℕ × List ℕ)) (frm : ℕ) (H S : List ℕ)
    (hsplit : st.receivedFinalSets = pre ++ (frm, H, S) :: post)
    (hfin : st.finished = false)
    (hacc : st.sentAccept = true) (hrec : st.sentReconstruct = true)
    (hH : ∀ x ∈ H, x ∈ st.myA) (hS : ∀ x ∈ S, x ∈ st.myS)
    (hcomp : ∀ j ∈ H, (st.receivedT j).isSome = true
      ∧ ∀ k ∈ (st.receivedT j).getD [], (st.reconstructedValues k j).isSome = true)
    (hpre : ∀ fs' ∈ pre, ICC.qualifies st fs' = false
      ∨ ICC.scanH st fs'.2.1 = none) :
    ICC.checkDecision st
      = ({ st with finished := true },
         [⟨if ∃ j ∈ H, ICC.specVj st j = 0 then 0 else 1⟩])
    ∧ (∀ st' : ICC.State, st'.finished = true →
        ICC.checkDecision st' = (st', [])) := by
  constructor
  · have hq : ICC.qualifies st (frm, H, S) = true := by
      unfold ICC.qualifies
      simp only [hacc, hrec, Bool.and_eq_true, Bool.true_and]
      constructor
      · show List.all _ _ = true
        rw [List.all_eq_true]
        exact fun x hx => List.elem_iff.2 (hH x hx)
      · show List.all _ _ = true
        rw [List.all_eq_true]
        exact fun x hx => List.elem_iff.2 (hS x hx)
    unfold ICC.checkDecision
    rw [if_neg (by simp [hfin]), hsplit,
        ICC.firstDecision_append st pre (frm, H, S) post hpre hq _
          (ICC.scanH_eq st H hcomp)]
    by_cases hex : ∃ j ∈ H, ICC.specVj st j = 0
    · simp [hex]
    · simp [hex]
  · intro st' h
    unfold ICC.checkDecision
    rw [if_pos h]

def iccWitnessState : ICC.State :=
  ⟨2, [2], [2], true, true,
   fun j => if j = 2 then some [1] else none,
   fun k j => if k = 1 ∧ j = 2 then some 4 else none,
   [(9, [2], [2])], false⟩

/-- Witness for C5 at a concrete ICC state: `T_2 = [1]`, `value[1][2] = 4`,
`u = 2`, so `v_2 = 0` and the coin is 0, emitted once. -/
theorem icc_decision_check_witness :
    ICC.checkDecision iccWitnessState
      = ({ iccWitnessState with finished := true },
         [⟨if ∃ j ∈ ([2] : List ℕ), ICC.specVj iccWitnessState j = 0
           then 0 else 1⟩])
    ∧ ICC.checkDecision { iccWitnessState with finished := true }
        = ({ iccWitnessState with finished := true }, []) :=
  ⟨(icc_decision_check iccWitnessState [] [] 9 [2] [2] rfl rfl rfl rfl
      (by decide) (by decide) (by decide)
      (fun f hf => absurd hf (List.not_mem_nil f))).1,
   (icc_decision_check iccWitnessState [] [] 9 [2] [2] rfl rfl rfl rfl
      (by decide) (by decide) (by decide)
      (fun f hf => absurd hf (List.not_mem_nil f))).2 _ rfl⟩

lemma IVSS.checkInterpolationSet_results (pr selfId n t : ℕ)
    (cp : CertificationProtocol) (inst : IVSS.Instance) :
    (IVSS.checkInterpolationSet pr selfId n t cp inst).results = [] := by
  unfold IVSS.checkInterpolationSet
  cases inst.mSet <;> dsimp only <;> split_ifs <;> rfl

/-- C8: the handler step that sets the secret — a REVEAL delivery running
`checkInterpolationSet` — never emits a result, even when `|ready_from|`
already reached `n - t`; and a READY delivery arriving while the secret is
unset emits nothing and does not latch `reconstructed`.  The claimed
re-check upon setting the secret does not exist: `Reconstructed` can only be
emitted by a strictly later READY delivery. -/
theorem ivss_reconstruct_emission_gap (pr selfId n t : ℕ)
    (cp : CertificationProtocol) (inst : IVSS.Instance)
    (payload : IVSS.Payload) :
    (payload.ptype = .reveal →
      (IVSS.OnACastDelivered pr selfId n t cp inst payload).results = [])
    ∧ (payload.ptype = .ready → inst.secret = none →
        (IVSS.OnACastDelivered pr selfId n t cp inst payload).results = []
        ∧ (IVSS.OnACastDelivered pr selfId n t cp inst payload).inst.reconstructed
            = inst.reconstructed) := by
  constructor
  · intro h
    unfold IVSS.OnACastDelivered
    rw [h]
    exact IVSS.checkInterpolationSet_results pr selfId n t cp _
  · intro h hsec
    unfold IVSS.OnACastDelivered
    rw [h]
    dsimp only
    split_ifs with hth
    · rw [hsec]
      exact ⟨rfl, rfl⟩
    · exact ⟨rfl, rfl⟩

/-- Witness for C8's theorem: a state with the ready threshold already met
(`n = 4`, `t = 1`, READYs from 1, 2, 3) and no secret; the REVEAL delivery
that interpolates the secret emits nothing, as does a replayed READY. -/
theorem ivss_reconstruct_emission_gap_witness :
    ((IVSS.mkReveal "I" (some [0, 0]) 2).ptype = .reveal
      ∧ (IVSS.OnACastDelivered Utils.Prime 4 4 1 ⟨∅⟩
          { IVSS.NewInstance "I" 1 with
            mSet := some [1, 2, 3],
            reconstructedPolys := [(1, [0, 0])],
            readyToComplete := {1, 2, 3} }
          (IVSS.mkReveal "I" (some [0, 0]) 2)).results = [])
    ∧ ((IVSS.mkReady "I" 3).ptype = .ready
      ∧ ({ IVSS.NewInstance "I" 1 with
            mSet := some [1, 2, 3],
            reconstructedPolys := [(1, [0, 0])],
            readyToComplete := {1, 2, 3} } : IVSS.Instance).secret = none
      ∧ (IVSS.OnACastDelivered Utils.Prime 4 4 1 ⟨∅⟩
          { IVSS.NewInstance "I" 1 with
            mSet := some [1, 2, 3],
            reconstructedPolys := [(1, [0, 0])],
            readyToComplete := {1, 2, 3} }
          (IVSS.mkReady "I" 3)).results = []) :=
  ⟨⟨rfl, (ivss_reconstruct_emission_gap Utils.Prime 4 4 1 ⟨∅⟩
      { IVSS.NewInstance "I" 1 with
        mSet := some [1, 2, 3],
        reconstructedPolys := [(1, [0, 0])],
        readyToComplete := {1, 2, 3} }
      (IVSS.mkReveal "I" (some [0, 0]) 2)).1 rfl⟩,
   ⟨rfl, rfl, ((ivss_reconstruct_emission_gap Utils.Prime 4 4 1 ⟨∅⟩
      { IVSS.NewInstance "I" 1 with
        mSet := some [1, 2, 3],
        reconstructedPolys := [(1, [0, 0])],
        readyToComplete := {1, 2, 3} }
      (IVSS.mkReady "I" 3)).2 rfl rfl).1⟩⟩

/-! ## Field-arithmetic lemmas for C9 -/

lemma int_cast_inj_of_range (p : ℕ) (hp : 0 < p) (x y : ℤ)
    (hx0 : 0 ≤ x) (hx1 : x < p) (hy0 : 0 ≤ y) (hy1 : y < p)
    (h : (x : ZMod p) = (y : ZMod p)) : x = y := by
  have hmod := (ZMod.intCast_eq_intCast_iff x y p).1 h
  have hx' : x % (p : ℤ) = x := Int.emod_eq_of_lt hx0 hx1
  have hy' : y % (p : ℤ) = y := Int.emod_eq_of_lt hy0 hy1
  have : x % (p : ℤ) = y % (p : ℤ) := hmod
  rw [hx', hy'] at this
  exact this

lemma modInverse_cast (p : ℕ) [hp : Fact p.Prime] (a : ℤ)
    (ha : (a : ZMod p) ≠ 0) :
    ((Utils.modInverse p a : ℤ) : ZMod p) = (a : ZMod p)⁻¹ := by
  have hp0 : 0 < p := hp.out.pos
  have hnn : (0 : ℤ) ≤ a.emod p :=
    Int.emod_nonneg a (by exact_mod_cast hp0.ne')
  have hcast : (((a.emod p).toNat : ℤ) : ZMod p) = (a : ZMod p) := by
    rw [Int.toNat_of_nonneg hnn]
    exact ZMod.intCast_mod a p
  have hnd : ¬ (p ∣ (a.emod p).toNat) := by
    intro hdvd
    apply ha
    rw [← hcast]
    have : ((p : ℤ)) ∣ (((a.emod p).toNat : ℤ)) := by exact_mod_cast hdvd
    exact_mod_cast (ZMod.intCast_zmod_eq_zero_iff_dvd _ p).2 this
  have hco : Nat.gcd ((a.emod p).toNat) p = 1 :=
    Nat.Coprime.symm ((Nat.Prime.coprime_iff_not_dvd hp.out).2 hnd)
  have hbez := Nat.gcd_eq_gcd_ab ((a.emod p).toNat) p
  rw [hco] at hbez
  have hzmod : (1 : ZMod p)
      = (a : ZMod p) * ((Nat.gcdA ((a.emod p).toNat) p : ℤ) : ZMod p) := by
    have hc := congrArg (fun z : ℤ => (z : ZMod p)) hbez
    simp only [Int.cast_natCast, Nat.cast_one, Int.cast_add, Int.cast_mul,
      Int.cast_natCast, ZMod.natCast_self, zero_mul, add_zero] at hc
    have hcast2 : (((a.emod p).toNat : ℕ) : ZMod p) = (a : ZMod p) := by
      exact_mod_cast hcast
    rw [hcast2] at hc
    simpa using hc
  have hinv : (a : ZMod p)⁻¹ = ((Nat.gcdA ((a.emod p).toNat) p : ℤ) : ZMod p) :=
    inv_eq_of_mul_eq_one_right hzmod.symm
  have hmodform : Utils.modInverse p a
      = (Nat.gcdA ((a.emod p).toNat) p : ℤ) % (p : ℤ) := rfl
  rw [hmodform, ZMod.intCast_mod, ← hinv]

/-- The polynomial over `ZMod p` whose coefficient list (low degree first)
is the cast of the given integer list. -/
noncomputable def polyOf (p : ℕ) : List ℤ → Polynomial (ZMod p)
  | [] => 0
  | c :: cs => Polynomial.C ((c : ℤ) : ZMod p) + Polynomial.X * polyOf p cs

lemma evalPoly_foldr (p : ℕ) (x : ℤ) (cs : List ℤ) :
    Utils.evalPoly p cs x
      = cs.foldr (fun c r => (r * x + c) % (p : ℤ)) 0 := by
  rw [Utils.evalPoly, List.foldl_reverse]

lemma evalPoly_cast (p : ℕ) (x : ℤ) :
    ∀ cs : List ℤ,
    ((Utils.evalPoly p cs x : ℤ) : ZMod p)
      = (polyOf p cs).eval ((x : ℤ) : ZMod p) := by
  intro cs
  rw [evalPoly_foldr]
  induction cs with
  | nil => simp [polyOf]
  | cons c cs ih =>
      rw [List.foldr_cons, ZMod.intCast_mod]
      push_cast
      rw [ih]
      simp [polyOf]
      ring

lemma polyOf_degree_lt (p : ℕ) [Fact p.Prime] :
    ∀ cs : List ℤ, (polyOf p cs).degree < ((cs.length : ℕ) : WithBot ℕ) := by
  intro cs
  induction cs with
  | nil =>
      simp only [polyOf, Polynomial.degree_zero, List.length_nil]
      exact WithBot.bot_lt_coe 0
  | cons c cs ih =>
      refine lt_of_le_of_lt (Polynomial.degree_add_le _ _) ?_
      rw [max_lt_iff]
      constructor
      · refine lt_of_le_of_lt Polynomial.degree_C_le ?_
        rw [List.length_cons]
        exact_mod_cast WithBot.coe_lt_coe.2 (Nat.succ_pos _)
      · refine lt_of_le_of_lt (Polynomial.degree_mul_le _ _) ?_
        refine lt_of_le_of_lt (add_le_add_right Polynomial.degree_X_le _) ?_
        have h1 : (1 : WithBot ℕ) + (polyOf p cs).degree
            < 1 + ((cs.length : ℕ) : WithBot ℕ) := by
          apply WithBot.add_lt_add_left
          · exact (by decide : (1 : WithBot ℕ) ≠ ⊥)
          · exact ih
        refine lt_of_lt_of_le h1 ?_
        rw [List.length_cons]
        have : (1 : WithBot ℕ) + ((cs.length : ℕ) : WithBot ℕ)
            = (((cs.length + 1 : ℕ)) : WithBot ℕ) := by
          push_cast
          ring
        rw [this]

lemma evalPoly_bounds (p : ℕ) (hp : 0 < p) (x : ℤ) (cs : List ℤ) :
    0 ≤ Utils.evalPoly p cs x ∧ Utils.evalPoly p cs x < p := by
  rw [evalPoly_foldr]
  cases cs with
  | nil =>
      simp only [List.foldr_nil]
      exact ⟨le_refl 0, by exact_mod_cast hp⟩
  | cons c cs =>
      rw [List.foldr_cons]
      exact ⟨Int.emod_nonneg _ (by exact_mod_cast hp.ne'),
             Int.emod_lt_of_pos _ (by exact_mod_cast hp)⟩

lemma sumfold_bounds (p : ℕ) (hp : 0 < p) (g : ℕ → ℤ) :
    ∀ (l : List ℕ) (a : ℤ), l ≠ [] →
    0 ≤ l.foldl (fun acc j => (acc + g j) % (p : ℤ)) a
    ∧ l.foldl (fun acc j => (acc + g j) % (p : ℤ)) a < p := by
  intro l
  induction l with
  | nil => intro a h; exact absurd rfl h
  | cons j rest ih =>
      intro a _
      cases rest with
      | nil =>
          simp only [List.foldl_cons, List.foldl_nil]
          exact ⟨Int.emod_nonneg _ (by exact_mod_cast hp.ne'),
                 Int.emod_lt_of_pos _ (by exact_mod_cast hp)⟩
      | cons b bs =>
          rw [List.foldl_cons]
          exact ih _ (by simp)

lemma sumfold_cast (p : ℕ) (g : ℕ → ℤ) (a : ℤ) :
    ∀ k : ℕ,
    (((List.range k).foldl (fun acc j => (acc + g j) % (p : ℤ)) a : ℤ) : ZMod p)
      = (a : ZMod p) + ∑ j ∈ Finset.range k, ((g j : ℤ) : ZMod p) := by
  intro k
  induction k with
  | zero => simp
  | succ k ih =>
      rw [List.range_succ, List.foldl_append, List.foldl_cons, List.foldl_nil,
          ZMod.intCast_mod]
      push_cast
      rw [ih, Finset.sum_range_succ]
      ring

lemma prodfold_cast (p : ℕ) (g : ℕ → ℤ) (j : ℕ) (a : ℤ) :
    ∀ k : ℕ,
    (((List.range k).foldl
        (fun acc m => if m = j then acc else (acc * g m) % (p : ℤ)) a : ℤ) : ZMod p)
      = (a : ZMod p) * ∏ m ∈ (Finset.range k).erase j, ((g m : ℤ) : ZMod p) := by
  intro k
  induction k with
  | zero => simp
  | succ k ih =>
      rw [List.range_succ, List.foldl_append, List.foldl_cons, List.foldl_nil]
      by_cases hj : k = j
      · rw [if_pos hj, ih, hj, Finset.range_succ, Finset.erase_insert_eq_erase]
      · rw [if_neg hj, ZMod.intCast_mod]
        push_cast
        rw [ih, Finset.range_succ, Finset.erase_insert_of_ne hj,
            Finset.prod_insert (fun hmem =>
              (by simp : k ∉ Finset.range k) (Finset.mem_of_mem_erase hmem))]
        ring

lemma ndfold_split (p : ℕ) (xs : List ℤ) (j : ℕ) :
    ∀ (l : List ℕ) (a b : ℤ),
    l.foldl (fun nd m => if m = j then nd
      else ((nd.1 * (-(xs.getD m 0))) % (p : ℤ),
            (nd.2 * (xs.getD j 0 - xs.getD m 0)) % (p : ℤ))) (a, b)
    = (l.foldl (fun acc m => if m = j then acc
        else (acc * (-(xs.getD m 0))) % (p : ℤ)) a,
       l.foldl (fun acc m => if m = j then acc
        else (acc * (xs.getD j 0 - xs.getD m 0)) % (p : ℤ)) b) := by
  intro l
  induction l with
  | nil => intro a b; rfl
  | cons m rest ih =>
      intro a b
      simp only [List.foldl_cons]
      by_cases hm : m = j
      · rw [if_pos hm, if_pos hm, if_pos hm]
        exact ih a b
      · rw [if_neg hm, if_neg hm, if_neg hm]
        exact ih _ _

lemma lagNumDen_eq (p : ℕ) (xs : List ℤ) (k j : ℕ) :
    Utils.lagNumDen p xs k j
      = ((List.range k).foldl (fun acc m => if m = j then acc
            else (acc * (-(xs.getD m 0))) % (p : ℤ)) 1,
         (List.range k).foldl (fun acc m => if m = j then acc
            else (acc * (xs.getD j 0 - xs.getD m 0)) % (p : ℤ)) 1) :=
  ndfold_split p xs j (List.range k) 1 1

lemma lagNum_cast (p : ℕ) (xs : List ℤ) (k j : ℕ) :
    (((Utils.lagNumDen p xs k j).1 : ℤ) : ZMod p)
      = ∏ m ∈ (Finset.range k).erase j, (-((xs.getD m 0 : ℤ) : ZMod p)) := by
  rw [lagNumDen_eq]
  have h := prodfold_cast p (fun m => -(xs.getD m 0)) j 1 k
  simpa using h

lemma lagDen_cast (p : ℕ) (xs : List ℤ) (k j : ℕ) :
    (((Utils.lagNumDen p xs k j).2 : ℤ) : ZMod p)
      = ∏ m ∈ (Finset.range k).erase j,
          (((xs.getD j 0 : ℤ) : ZMod p) - ((xs.getD m 0 : ℤ) : ZMod p)) := by
  rw [lagNumDen_eq]
  have h := prodfold_cast p (fun m => xs.getD j 0 - xs.getD m 0) j 1 k
  simpa using h

lemma lagTerm_cast (p : ℕ) [Fact p.Prime] (xs ys : List ℤ) (k j : ℕ)
    (hden : (((Utils.lagNumDen p xs k j).2 : ℤ) : ZMod p) ≠ 0) :
    ((Utils.lagTerm p xs ys k j : ℤ) : ZMod p)
      = ((ys.getD j 0 : ℤ) : ZMod p)
        * (((Utils.lagNumDen p xs k j).1 : ℤ) : ZMod p)
        * (((Utils.lagNumDen p xs k j).2 : ℤ) : ZMod p)⁻¹ := by
  rw [Utils.lagTerm, ZMod.intCast_mod, Int.cast_mul, ZMod.intCast_mod,
      Int.cast_mul, modInverse_cast p _ hden]

lemma xs_injOn (p : ℕ) (hp : 0 < p) (xs : List ℤ)
    (hrange : ∀ x ∈ xs, 0 ≤ x ∧ x < (p : ℤ)) (hnodup : xs.Nodup) :
    Set.InjOn (fun m => ((xs.getD m 0 : ℤ) : ZMod p))
      (Finset.range xs.length) := by
  intro a ha b hb hab
  have ha' : a < xs.length := Finset.mem_range.1 (Finset.mem_coe.1 ha)
  have hb' : b < xs.length := Finset.mem_range.1 (Finset.mem_coe.1 hb)
  have hga : xs.getD a 0 = xs[a] := by
    rw [List.getD_eq_getElem?_getD, List.getElem?_eq_getElem ha']
    rfl
  have hgb : xs.getD b 0 = xs[b] := by
    rw [List.getD_eq_getElem?_getD, List.getElem?_eq_getElem hb']
    rfl
  have hma : xs.getD a 0 ∈ xs := by
    rw [hga]
    exact List.getElem_mem ha'
  have hmb : xs.getD b 0 ∈ xs := by
    rw [hgb]
    exact List.getElem_mem hb'
  have hia := hrange _ hma
  have hib := hrange _ hmb
  dsimp only at hab
  have heq : xs.getD a 0 = xs.getD b 0 :=
    int_cast_inj_of_range p hp _ _ hia.1 hia.2 hib.1 hib.2 hab
  rw [hga, hgb] at heq
  exact (List.Nodup.getElem_inj_iff hnodup).1 heq

lemma lagrange_eval_zero (p : ℕ) [Fact p.Prime] (k : ℕ) (v : ℕ → ZMod p)
    (hinj : Set.InjOn v (Finset.range k))
    (f : Polynomial (ZMod p)) (hdeg : f.degree < ((k : ℕ) : WithBot ℕ)) :
    ∑ j ∈ Finset.range k, f.eval (v j)
      * ((∏ m ∈ (Finset.range k).erase j, (-(v m)))
        * (∏ m ∈ (Finset.range k).erase j, (v j - v m))⁻¹)
      = f.eval 0 := by
  have hdeg' : f.degree < (((Finset.range k).card : ℕ) : WithBot ℕ) := by
    simp only [Finset.card_range]
    exact hdeg
  have hf := Lagrange.eq_interpolate hinj hdeg'
  conv_rhs => rw [hf]
  rw [Lagrange.interpolate_apply, Polynomial.eval_finset_sum]
  refine Finset.sum_congr rfl ?_
  intro j hj
  have hbas : ∀ m ∈ (Finset.range k).erase j,
      (Lagrange.basisDivisor (v j) (v m)).eval 0 = (-(v m)) * (v j - v m)⁻¹ := by
    intro m _
    simp only [Lagrange.basisDivisor, Polynomial.eval_mul, Polynomial.eval_C,
      Polynomial.eval_sub, Polynomial.eval_X, zero_sub]
    ring
  have hbasis : (Lagrange.basis (Finset.range k) v j).eval 0
      = (∏ m ∈ (Finset.range k).erase j, (-(v m)))
        * (∏ m ∈ (Finset.range k).erase j, (v j - v m))⁻¹ := by
    rw [Lagrange.basis, Polynomial.eval_prod,
        Finset.prod_congr rfl hbas, Finset.prod_mul_distrib,
        Finset.prod_inv_distrib]
  rw [Polynomial.eval_mul, Polynomial.eval_C, hbasis]

/-- C9: on pairwise-distinct points in `[0,p)` with values matching a
polynomial of degree `< k` over the prime field, `InterpolateAtZero` returns
the polynomial's value at zero, normalized into `[0,p)`. -/
theorem interpolate_at_zero_correct (p : ℕ) (hp : p.Prime)
    (xs ys coeffs : List ℤ) (k : ℕ)
    (hk : xs.length = k) (hk1 : 1 ≤ k) (hys : ys.length = k)
    (hdeg : coeffs.length ≤ k)
    (hrange : ∀ x ∈ xs, 0 ≤ x ∧ x < (p : ℤ))
    (hnodup : xs.Nodup)
    (hy : ∀ i < k, ys.getD i 0 = Utils.evalPoly p coeffs (xs.getD i 0)) :
    Utils.InterpolateAtZero p xs ys = Utils.evalPoly p coeffs 0
    ∧ 0 ≤ Utils.InterpolateAtZero p xs ys
    ∧ Utils.InterpolateAtZero p xs ys < (p : ℤ) := by
  haveI : Fact p.Prime := ⟨hp⟩
  have hp0 : 0 < p := hp.pos
  subst hk
  have hne : List.range xs.length ≠ [] := by
    simp only [ne_eq, List.range_eq_nil]
    omega
  have hb := sumfold_bounds p hp0 (Utils.lagTerm p xs ys xs.length)
    (List.range xs.length) 0 hne
  have hIe : Utils.InterpolateAtZero p xs ys
      = (List.range xs.length).foldl
          (fun acc j => (acc + Utils.lagTerm p xs ys xs.length j) % (p : ℤ))
          0 := by
    unfold Utils.InterpolateAtZero
    simp only []
    rw [if_neg (not_lt.2 hb.1)]
  have hlo : 0 ≤ Utils.InterpolateAtZero p xs ys := by
    rw [hIe]
    exact hb.1
  have hhi : Utils.InterpolateAtZero p xs ys < (p : ℤ) := by
    rw [hIe]
    exact hb.2
  have hinj : Set.InjOn (fun m => ((xs.getD m 0 : ℤ) : ZMod p))
      (Finset.range xs.length) := xs_injOn p hp0 xs hrange hnodup
  have hdenNZ : ∀ j ∈ Finset.range xs.length,
      (∏ m ∈ (Finset.range xs.length).erase j,
        (((xs.getD j 0 : ℤ) : ZMod p) - ((xs.getD m 0 : ℤ) : ZMod p)))
        ≠ 0 := by
    intro j hj
    rw [Finset.prod_ne_zero_iff]
    intro m hm h0
    have hmj : m ≠ j := Finset.ne_of_mem_erase hm
    have hmk : m ∈ Finset.range xs.length := Finset.mem_of_mem_erase hm
    rw [sub_eq_zero] at h0
    exact hmj (hinj (Finset.mem_coe.2 hmk) (Finset.mem_coe.2 hj) h0.symm)
  have hcast : ∀ j ∈ Finset.range xs.length,
      ((Utils.lagTerm p xs ys xs.length j : ℤ) : ZMod p)
        = (polyOf p coeffs).eval ((xs.getD j 0 : ℤ) : ZMod p)
          * ((∏ m ∈ (Finset.range xs.length).erase j,
                (-((xs.getD m 0 : ℤ) : ZMod p)))
            * (∏ m ∈ (Finset.range xs.length).erase j,
                (((xs.getD j 0 : ℤ) : ZMod p)
                  - ((xs.getD m 0 : ℤ) : ZMod p)))⁻¹) := by
    intro j hj
    have hdc := lagDen_cast p xs xs.length j
    rw [lagTerm_cast p xs ys xs.length j (by rw [hdc]; exact hdenNZ j hj),
        hdc, lagNum_cast p xs xs.length j,
        hy j (Finset.mem_range.1 hj), evalPoly_cast]
    ring
  have hdegk : (polyOf p coeffs).degree
      < ((xs.length : ℕ) : WithBot ℕ) := by
    refine lt_of_lt_of_le (polyOf_degree_lt p coeffs) ?_
    exact_mod_cast hdeg
  have hlag := lagrange_eval_zero p xs.length
      (fun m => ((xs.getD m 0 : ℤ) : ZMod p)) hinj (polyOf p coeffs) hdegk
  simp only [] at hlag
  have hsum : ((Utils.InterpolateAtZero p xs ys : ℤ) : ZMod p)
      = ((Utils.evalPoly p coeffs 0 : ℤ) : ZMod p) := by
    rw [hIe, sumfold_cast p (Utils.lagTerm p xs ys xs.length) 0 xs.length,
        Finset.sum_congr rfl hcast, hlag, evalPoly_cast]
    simp
  have hbe := evalPoly_bounds p hp0 0 coeffs
  exact ⟨int_cast_inj_of_range p hp0 _ _ hlo hhi hbe.1 hbe.2 hsum, hlo, hhi⟩

/-- Concrete run of `interpolate_at_zero_correct` at `p = 5`, points `[1,2]`,
values `[3,4]` of the polynomial `2 + x`: the interpolation returns `2`. -/
theorem interpolate_at_zero_correct_witness :
    Nat.Prime 5
    ∧ (Utils.InterpolateAtZero 5 [1, 2] [3, 4] = Utils.evalPoly 5 [2, 1] 0
      ∧ 0 ≤ Utils.InterpolateAtZero 5 [1, 2] [3, 4]
      ∧ Utils.InterpolateAtZero 5 [1, 2] [3, 4] < ((5 : ℕ) : ℤ)) :=
  ⟨by decide,
   interpolate_at_zero_correct 5 (by decide) [1, 2] [3, 4] [2, 1] 2
     rfl (by decide) rfl (by decide) (by decide) (by decide) (by decide)⟩

def c6share : IVSS.DirectMsg := ⟨.Share, 1, 1, "inst", some [5], none, 0⟩

/-- C6 counterexample: replaying the Direct_Share message re-emits the point
broadcasts, and replaying a delivered MSET payload re-emits the
SHARING_COMPLETE result — neither is a no-op. -/
theorem handler_replay_counterexample :
    (IVSS.OnMessage Utils.Prime 1 1
        ((IVSS.OnMessage Utils.Prime 1 1 (IVSS.NewInstance "inst" 0) c6share).inst)
        c6share).broadcasts ≠ []
    ∧ (IVSS.OnACastDelivered Utils.Prime 1 1 0
        (IVSS.OnACastDelivered Utils.Prime 1 1 0 ⟨∅⟩ (IVSS.NewInstance "inst" 0)
          (IVSS.mkMSet "inst" [1])).cp
        (IVSS.OnACastDelivered Utils.Prime 1 1 0 ⟨∅⟩ (IVSS.NewInstance "inst" 0)
          (IVSS.mkMSet "inst" [1])).inst
        (IVSS.mkMSet "inst" [1])).results ≠ [] := by
  constructor
  · decide
  · decide
